import Mathlib

/-!
Verification development for the SmartOdds race-data cleaning pipeline.

The Python sources embedded here are `src/cleaning.py` (the pipeline) and the
repository's own dataframe shim `pandas/__init__.py`; the shim is part of the
repository, so its exact behaviour (not real pandas) is what we model.

Modelling conventions:
* Python numbers are modelled exactly.  Floats become unnormalised fractions
  (`Q` below: integer numerator, positive natural denominator) so that every
  pipeline computation reduces inside the kernel; Python `==`/`<` on numbers
  are cross-multiplication tests (`Q.eqv`, `Q.le`).  All float arithmetic in
  the sources (unit conversions, stones-to-pounds) is exact integer-scaled
  arithmetic, so no floating-point rounding behaviour is lost.
* Python `None` (= the shim's `pd.NA`) is `Option.none`; a dataframe cell is
  `Option PValue`.
* `datetime` values are encoded as the integer `YYYYMMDDHHMMSS`, which is
  order- and equality-isomorphic to the real values produced by the shim's
  `to_datetime`, and whose decimal digits coincide with the digit sequence of
  `str(datetime)` (used when a datetime value reaches a string parser).
* Python `float(text)` / `int(text)` are modelled on optional-sign decimal
  notation, the fragment exercised by this pipeline; exotic literal forms
  (exponents, `inf`, `nan`, underscores) are outside the modelled fragment.
* Fallible functions return `Except`/`Option`; a raised Python exception is an
  `Except.error`.
-/

deriving instance DecidableEq for Except

/-- Exact fraction: numerator and positive denominator, not normalised.
Models Python floats/ints exactly for the (finite decimal) arithmetic the
pipeline performs. -/
structure Q where
  num : ℤ
  den : ℕ+
deriving DecidableEq

/-- The integer `z` as a fraction. -/
def Q.ofInt (z : ℤ) : Q := ⟨z, 1⟩

/-- The natural `n` as a fraction. -/
def Q.ofNat (n : ℕ) : Q := ⟨(n : ℤ), 1⟩

/-- Exact addition of fractions (cross multiplication, no reduction). -/
def Q.add (x y : Q) : Q := ⟨x.num * (y.den : ℤ) + y.num * (x.den : ℤ), x.den * y.den⟩

/-- Exact multiplication of fractions. -/
def Q.mul (x y : Q) : Q := ⟨x.num * y.num, x.den * y.den⟩

/-- Python `==` on two numbers: cross-multiplied equality. -/
def Q.eqv (x y : Q) : Bool := x.num * (y.den : ℤ) = y.num * (x.den : ℤ)

/-- Python `<=` on two numbers. -/
def Q.le (x y : Q) : Bool := decide (x.num * (y.den : ℤ) ≤ y.num * (x.den : ℤ))

/-- Python `<` on two numbers. -/
def Q.lt (x y : Q) : Bool := decide (x.num * (y.den : ℤ) < y.num * (x.den : ℤ))

/-- Whether the fraction is strictly positive (Python `v > 0`). -/
def Q.pos (x : Q) : Bool := decide (0 < x.num)

/-- Python `int(x)`: truncation towards zero. -/
def Q.trunc (x : Q) : ℤ := Int.tdiv x.num (x.den : ℤ)

/-- Python `round(x)` with no digits argument: round half to even. -/
def Q.round (x : Q) : ℤ :=
  let d : ℤ := (x.den : ℤ)
  let f : ℤ := Int.fdiv x.num d
  let r : ℤ := x.num - f * d
  if 2 * r < d then f
  else if d < 2 * r then f + 1
  else if f % 2 = 0 then f else f + 1

/-- A non-null Python value as it occurs in dataframe cells: machine integers,
floats, strings and datetimes (encoded as `YYYYMMDDHHMMSS`). -/
inductive PValue where
  | int (z : ℤ)
  | float (q : Q)
  | str (s : String)
  | dt (t : ℤ)
deriving DecidableEq

/-- A dataframe cell: `none` is Python `None` (the shim's `pd.NA`). -/
abbrev Cell := Option PValue

/-- Python `==` between non-null values: ints and floats compare numerically
across types, strings and datetimes compare within their own type, and any
other cross-type comparison is unequal. -/
def PValue.eqv : PValue → PValue → Bool
  | .int a, .int b => a = b
  | .int a, .float q => Q.eqv (Q.ofInt a) q
  | .float q, .int a => Q.eqv q (Q.ofInt a)
  | .float p, .float q => Q.eqv p q
  | .str a, .str b => a = b
  | .dt a, .dt b => a = b
  | _, _ => false

/-- Python `==` between cells; `None == None` holds. -/
def Cell.eqv : Cell → Cell → Bool
  | none, none => true
  | some a, some b => PValue.eqv a b
  | _, _ => false

/-- Whitespace characters recognised by Python `str.strip()` (ASCII fragment). -/
def pyIsSpace (c : Char) : Bool := c = ' ' || c = '\t' || c = '\n' || c = '\r'

/-- Python `str.strip()` on a character list. -/
def stripChars (l : List Char) : List Char :=
  ((l.dropWhile pyIsSpace).reverse.dropWhile pyIsSpace).reverse

/-- Python `str.strip()`. -/
def pyStrip (s : String) : String := String.mk (stripChars s.toList)

/-- Python `str.lower()` (ASCII fragment). -/
def pyLower (s : String) : String := String.mk (s.toList.map Char.toLower)

/-- Python `s.startswith(pre)`. -/
def strStartsWith (s pre : String) : Bool := pre.toList.isPrefixOf s.toList

/-- Lexicographic comparison of character lists by code point. -/
def charListLe : List Char → List Char → Bool
  | [], _ => true
  | _ :: _, [] => false
  | a :: xs, b :: ys => if a < b then true else if b < a then false else charListLe xs ys

/-- Python `<=` on strings: lexicographic by code point. -/
def strLe (a b : String) : Bool := charListLe a.toList b.toList

/-- Numeric value of a digit list, most significant first. -/
def digitsVal (l : List Char) : ℕ := l.foldl (fun a c => a * 10 + (c.toNat - 48)) 0

/-- Positive power of ten as a positive natural. -/
def pow10 (k : ℕ) : ℕ+ := ⟨10 ^ k, Nat.pos_pow_of_pos k (by decide)⟩

/-- The optional leading sign of a numeric literal. -/
def splitSign (l : List Char) : ℤ × List Char :=
  match l with
  | [] => (1, [])
  | c :: r => if c = '+' then (1, r) else if c = '-' then (-1, r) else (1, c :: r)

/-- Python `float(text)` on the decimal fragment: optional surrounding
whitespace, optional sign, digits with at most one decimal point, at least one
digit.  Anything else is a `ValueError`, i.e. `none`. -/
def pyFloat (s : String) : Option Q :=
  let signed := splitSign (stripChars s.toList)
  let ip := signed.2.takeWhile Char.isDigit
  let r1 := signed.2.dropWhile Char.isDigit
  match r1 with
  | [] => if ip.isEmpty then none else some ⟨signed.1 * (digitsVal ip : ℤ), 1⟩
  | '.' :: r2 =>
    let fp := r2.takeWhile Char.isDigit
    let r3 := r2.dropWhile Char.isDigit
    if r3.isEmpty && !(ip.isEmpty && fp.isEmpty) then
      some ⟨signed.1 * ((digitsVal ip : ℤ) * (10 : ℤ) ^ fp.length + (digitsVal fp : ℤ)),
        pow10 fp.length⟩
    else none
  | _ => none

/-- Python `int(text)`: optional surrounding whitespace, optional sign, one or
more digits; anything else raises, i.e. `none`. -/
def pyIntOfStr (s : String) : Option ℤ :=
  let signed := splitSign (stripChars s.toList)
  if signed.2 ≠ [] && signed.2.all Char.isDigit then
    some (signed.1 * (digitsVal signed.2 : ℤ))
  else none

/-- Python `text.split(sep)` for the one-character separator `'-'`
(every occurrence splits; empty pieces are kept). -/
def splitDash : List Char → List (List Char)
  | [] => [[]]
  | c :: r =>
    match splitDash r, c with
    | h :: t, '-' => [] :: h :: t
    | h :: t, c' => (c' :: h) :: t
    | [], _ => [[]]

/-- Python `float(value)` applied to a cell value: ints widen, floats pass,
strings parse, and `float(datetime)` raises (`none`). -/
def pyFloatOfValue : PValue → Option Q
  | .int z => some (Q.ofInt z)
  | .float q => some q
  | .str s => pyFloat s
  | .dt _ => none

/-- Python `int(value)` applied to a cell value: floats truncate towards zero,
strings must be integer literals, and `int(datetime)` raises (`none`). -/
def pyIntOfValue : PValue → Option ℤ
  | .int z => some z
  | .float q => some q.trunc
  | .str s => pyIntOfStr s
  | .dt _ => none

/-- `cleaning.py` line 39: the leakage marker. -/
def OBS_PREFIX : String := "obs__"

/-- `cleaning.py` `_parse_weight` (lines 146-162): `None` passes through,
numbers pass through as floats, text containing a dash must split into exactly
two float-parseable pieces (`stones-pounds`, worth `stones*14 + pounds`), any
other text is parsed as a plain float, and every failure yields `None`.
A datetime value stringifies to `YYYY-MM-DD HH:MM:SS`, which splits on the
dashes into three pieces and therefore yields `None`. -/
def _parse_weight : Cell → Option Q
  | none => none
  | some (.int z) => some (Q.ofInt z)
  | some (.float q) => some q
  | some (.dt _) => none
  | some (.str s) =>
    if s.toList.contains '-' then
      match splitDash s.toList with
      | [a, b] =>
        match pyFloat (String.mk a), pyFloat (String.mk b) with
        | some st, some lb => some (Q.add (Q.mul st (Q.ofNat 14)) lb)
        | _, _ => none
      | _ => none
    else pyFloat s

/-- `_parse_distance`'s scanning loop (lines 176-191): digits and dots extend
the current numeric token, a unit letter closes the token and adds its
contribution (token value defaulting to `0` when unparseable), and any other
character is skipped without clearing the token. -/
def distLoop : List Char → Q → List Char → Q × List Char
  | [], acc, numTok => (acc, numTok)
  | c :: rest, acc, numTok =>
    if c.isDigit || c = '.' then distLoop rest acc (numTok ++ [c])
    else
      let mag := (pyFloat (String.mk numTok)).getD (Q.ofNat 0)
      if c = 'm' then distLoop rest (Q.add acc (Q.mul mag (Q.ofNat 1760))) []
      else if c = 'f' then distLoop rest (Q.add acc (Q.mul mag (Q.ofNat 220))) []
      else if c = 'y' then distLoop rest (Q.add acc mag) []
      else distLoop rest acc numTok

/-- `cleaning.py` `_parse_distance` on text (lines 172-197): strip and
lowercase, run the scanning loop from zero, add a trailing parseable numeric
remainder as-is, and return the total only when it is strictly positive. -/
def _parse_distance_str (s : String) : Option Q :=
  let scanned := distLoop (pyLower (pyStrip s)).toList (Q.ofNat 0) []
  let yards :=
    match pyFloat (String.mk scanned.2) with
    | some q => Q.add scanned.1 q
    | none => scanned.1
  if yards.pos then some yards else none

/-- `cleaning.py` `_parse_distance` (lines 165-197): `None` passes through,
numbers are returned unchanged as floats (with no positivity gate), and text
goes through the token scanner.  A datetime value stringifies to
`YYYY-MM-DD HH:MM:SS`; the scanner skips the separators, so the accumulated
trailing token is exactly the digit string `YYYYMMDDHHMMSS`, i.e. the
encoding integer itself, which is positive for every real date. -/
def _parse_distance : Cell → Option Q
  | none => none
  | some (.int z) => some (Q.ofInt z)
  | some (.float q) => some q
  | some (.dt t) => if (0 : ℤ) < t then some (Q.ofInt t) else none
  | some (.str s) => _parse_distance_str s

/-- `cleaning.py` lines 204-219: the fixed vocabulary of non-finish codes. -/
def NON_FINISH_CODES : List String :=
  ["pu", "ur", "f", "bd", "ro", "ref", "voi", "lft", "su", "dsq", "dnf", "ot", "otd", "bf"]

/-- `cleaning.py` `_standardize_finish` (lines 200-227): `None` passes
through; otherwise `str(value).strip().lower()` is checked against the
non-finish vocabulary and then parsed as a float, keeping only strictly
positive results.  For int/float inputs the string round-trips through
`float()` back to the same number and is never in the vocabulary, so the
numeric value is gated directly; `str(datetime)` is neither in the
vocabulary nor float-parseable, so datetimes yield `None`. -/
def _standardize_finish : Cell → Option Q
  | none => none
  | some (.int z) => if (0 : ℤ) < z then some (Q.ofInt z) else none
  | some (.float q) => if q.pos then some q else none
  | some (.dt _) => none
  | some (.str s) =>
    let text := pyLower (pyStrip s)
    if NON_FINISH_CODES.contains text then none
    else
      match pyFloat text with
      | some q => if q.pos then some q else none
      | none => none

/-- One dataframe row, as the shim stores it: an insertion-ordered dict from
column name to cell. -/
abbrev Row := List (String × Cell)

/-- Python `row.get(key)`: `None` when the key is absent. -/
def Row.get (r : Row) (k : String) : Cell :=
  match r.find? (fun p => p.1 == k) with
  | some p => p.2
  | none => none

/-- The row's key list, in dict insertion order. -/
def Row.keys (r : Row) : List String := r.map (·.1)

/-- Python `row[key] = val`: update in place when the key exists (keeping its
position), else append at the end. -/
def Row.set (r : Row) (k : String) (v : Cell) : Row :=
  if r.any (fun p => p.1 == k) then r.map (fun p => if p.1 == k then (k, v) else p)
  else r ++ [(k, v)]

/-- Removing one key from a row dict. -/
def Row.dropKey (r : Row) (k : String) : Row := r.filter (fun p => p.1 != k)

/-- The shim's `DataFrame`: a stored column list plus the row dicts.  The
column list is derived from the first row at construction but evolves
independently under `__setitem__`. -/
structure DataFrame where
  cols : List String
  rows : List Row
deriving DecidableEq

/-- `DataFrame.__init__`: columns are the first row's keys, or empty. -/
def mkDF (rows : List Row) : DataFrame :=
  ⟨match rows with | [] => [] | r :: _ => r.keys, rows⟩

/-- `df[key]` for a string key: the column as a list of cells
(`row.get`, so a missing column reads as all nulls). -/
def getCol (df : DataFrame) (k : String) : List Cell := df.rows.map (Row.get · k)

/-- `df[key] = values` for a list of values: pairs rows with values (`zip`
stops at the shorter side, later rows keeping their old cells), populates an
empty frame with one-key rows, and appends the key to the stored column list
when new. -/
def setCol (df : DataFrame) (k : String) (vals : List Cell) : DataFrame :=
  ⟨if df.cols.contains k then df.cols else df.cols ++ [k],
   match df.rows with
   | [] => vals.map (fun v => [(k, v)])
   | _ => (List.zipWith (fun r v => Row.set r k v) df.rows vals) ++ df.rows.drop vals.length⟩

/-- `df.drop(columns=k)`: removes the key from every row and rebuilds the
frame (so the column list is recomputed from the first row). -/
def dropColDF (df : DataFrame) (k : String) : DataFrame :=
  mkDF (df.rows.map (Row.dropKey · k))

/-- `df.dropna(subset=…)`: keeps rows whose cells at every subset column are
non-null, rebuilding the frame. -/
def dropnaDF (df : DataFrame) (subset : List String) : DataFrame :=
  mkDF (df.rows.filter (fun r => subset.all (fun c => (Row.get r c).isSome)))

/-- `df[mask]` for a boolean-series mask: keeps rows paired with a truthy mask
entry (`None` is falsy), rebuilding the frame. -/
def filterMaskDF (df : DataFrame) (mask : List (Option Bool)) : DataFrame :=
  mkDF (((df.rows.zip mask).filter (fun p => p.2.getD false)).map (·.1))

/-- `series > q` entrywise: `None` stays `None`, numbers compare numerically.
The string/datetime cases would raise a `TypeError` in Python; they are
unreachable in the pipeline, which compares only freshly coerced numeric
columns. -/
def cellGt (c : Cell) (q : Q) : Option Bool :=
  match c with
  | none => none
  | some (.int z) => some (Q.lt q (Q.ofInt z))
  | some (.float p) => some (Q.lt q p)
  | some (.str _) => none
  | some (.dt _) => none

/-- The tuple of a row's cells at the given columns. -/
def keyTuple (r : Row) (subset : List String) : List Cell := subset.map (Row.get r)

/-- Python `==` on two equal-length tuples of cells. -/
def cellsEqv (a b : List Cell) : Bool :=
  a.length == b.length && (a.zip b).all fun p => Cell.eqv p.1 p.2

/-- Accumulator loop for `df.duplicated(subset=…).any()`: walks the rows
keeping the set of seen key tuples. -/
def dupAnyAux (subset : List String) : List Row → List (List Cell) → Bool
  | [], _ => false
  | r :: rest, seen =>
    let k := keyTuple r subset
    if seen.any (cellsEqv k) then true else dupAnyAux subset rest (k :: seen)

/-- `df.duplicated(subset=…).any()`: whether some key tuple repeats. -/
def duplicatedAny (df : DataFrame) (subset : List String) : Bool :=
  dupAnyAux subset df.rows []

/-- First-seen-order deduplication by an equivalence test (Python dict/set
insertion behaviour). -/
def firstSeenBy (eqv : α → α → Bool) : List α → List α → List α
  | [], acc => acc.reverse
  | c :: r, acc =>
    if acc.any (fun k => eqv k c) then firstSeenBy eqv r acc
    else firstSeenBy eqv r (c :: acc)

/-- `df.groupby(k)`: one `(key, sub-frame)` pair per distinct key (Python
`==`), keys in first-seen order, each group keeping the original row order. -/
def groupbyDF (df : DataFrame) (k : String) : List (Cell × DataFrame) :=
  (firstSeenBy Cell.eqv (df.rows.map (Row.get · k)) []).map
    (fun key => (key, mkDF (df.rows.filter (fun r => Cell.eqv (Row.get r k) key))))

/-- `series.nunique(dropna=True)`: the number of distinct (Python `==`)
non-null values. -/
def nuniqueDropna (cells : List Cell) : ℕ :=
  (firstSeenBy PValue.eqv (cells.filterMap id) []).length

/-- Rank used to totalise Python's comparison across cell constructors.  On
the homogeneous comparisons Python actually performs (numbers with numbers,
strings with strings, datetimes with datetimes, and `None == None` on tuple
components) the induced order coincides with Python's. -/
def cellRank : Cell → ℕ
  | none => 0
  | some (.int _) => 1
  | some (.float _) => 1
  | some (.str _) => 2
  | some (.dt _) => 3

/-- Numeric payload of a cell (junk for non-numbers). -/
def cellNum : Cell → Q
  | some (.int z) => Q.ofInt z
  | some (.float q) => q
  | _ => Q.ofNat 0

/-- String payload of a cell (junk for non-strings). -/
def cellStr : Cell → String
  | some (.str s) => s
  | _ => ""

/-- Datetime payload of a cell (junk for non-datetimes). -/
def cellDt : Cell → ℤ
  | some (.dt t) => t
  | _ => 0

/-- Total comparison on cells: by rank, then by the payload order of the
rank.  A total preorder extending Python `<=` on the comparable cases. -/
def cellLe (a b : Cell) : Bool :=
  if cellRank a < cellRank b then true
  else if cellRank b < cellRank a then false
  else if cellRank a = 1 then Q.le (cellNum a) (cellNum b)
  else if cellRank a = 2 then strLe (cellStr a) (cellStr b)
  else if cellRank a = 3 then decide (cellDt a ≤ cellDt b)
  else true

/-- Lexicographic comparison of key tuples, as Python compares tuples. -/
def lexLe : List Cell → List Cell → Bool
  | [], _ => true
  | _ :: _, [] => false
  | a :: xs, b :: ys =>
    (cellLe a b && !(cellLe b a)) || (cellLe a b && cellLe b a && lexLe xs ys)

/-- Row comparison used by `sort_values(by=…)`. -/
def rowLeBy (cols : List String) (r1 r2 : Row) : Bool :=
  lexLe (keyTuple r1 cols) (keyTuple r2 cols)

/-- Stable insertion of an element into a list: it lands before the first
element it compares `le` to, hence after every earlier-listed equivalent
element. -/
def insertLe (le : α → α → Bool) (a : α) : List α → List α
  | [] => [a]
  | b :: l => if le a b then a :: b :: l else b :: insertLe le a l

/-- Stable insertion sort.  Python's `sorted` is timsort, also stable; a
stable sort with respect to a total preorder is extensionally unique, so this
computes exactly the shim's `sorted(rows, key=…)`. -/
def stableSort (le : α → α → Bool) : List α → List α
  | [] => []
  | a :: l => insertLe le a (stableSort le l)

/-- `df.sort_values(by=…, kind="mergesort")`: a stable sort of the rows by the
key tuple, rebuilding the frame. -/
def sort_valuesDF (df : DataFrame) (cols : List String) : DataFrame :=
  mkDF (stableSort (rowLeBy cols) df.rows)

/-- The shim's dtype kind of a column: decided by the first non-null value
(datetime `M`, float `f`, int `i`, anything else — including an all-null
column — `O`). -/
inductive DKind where
  | M | f | i | O
deriving DecidableEq

/-- `series.dtype.kind` in the shim. -/
def seriesKind (cells : List Cell) : DKind :=
  match (cells.filterMap id).head? with
  | some (.dt _) => .M
  | some (.float _) => .f
  | some (.int _) => .i
  | some (.str _) => .O
  | none => .O

/-- `cleaning.py` lines 21-34: the required schema, in declared order. -/
def REQUIRED_COLUMNS : List (String × String) :=
  [("race_id", "int"), ("horse_id", "int"), ("date", "datetime64[ns]"),
   ("race_time", "datetime64[ns]"), ("racecourse", "object"),
   ("race_type_simple", "object"), ("distance", "float"), ("n_runners", "int"),
   ("draw", "float"), ("age", "float"), ("weight_lbs", "float"),
   ("finish_position", "Int64")]

/-- `SchemaConfig.ordered_columns`: the schema's column names in declared
order. -/
def SCHEMA_ordered_columns : List String := REQUIRED_COLUMNS.map (·.1)

/-- The errors `validate_schema` can raise. -/
inductive SchemaErr where
  | missingColumns (names : List String)
  | badType (col : String)
  | duplicateKey
deriving DecidableEq

/-- The dtype compatibility test of `validate_schema` (lines 109-136):
object-kind columns are accepted for every declared kind; the shim's dtype
name is never the string `"Int64"`, so that disjunct is vacuous, and the
kinds `U`/`S` cannot arise in the shim. -/
def kindOK (expected : String) (k : DKind) : Bool :=
  if expected = "datetime64[ns]" then k == .M || k == .O
  else if expected = "Int64" then k == .i || k == .O
  else if expected = "int" then k == .i || k == .O
  else if expected = "float" then k == .f || k == .O
  else if expected = "object" then k == .O
  else true

/-- The first required column (in schema order) that is present but fails the
dtype check; the loop skips absent columns. -/
def firstBadColumn (df : DataFrame) : Option String :=
  (REQUIRED_COLUMNS.find?
    (fun p => df.cols.contains p.1 && !(kindOK p.2 (seriesKind (getCol df p.1))))).map (·.1)

/-- `cleaning.py` `validate_schema` (lines 94-139): missing columns first
(reported sorted), then the dtype check in schema order, then the duplicate
`(race_id, horse_id)` check. -/
def validate_schema (df : DataFrame) : Except SchemaErr Unit :=
  let missing := SCHEMA_ordered_columns.filter (fun c => !(df.cols.contains c))
  if missing ≠ [] then
    .error (.missingColumns (stableSort strLe missing))
  else
    match firstBadColumn df with
    | some col => .error (.badType col)
    | none =>
      if duplicatedAny df ["race_id", "horse_id"] then .error .duplicateKey
      else .ok ()

/-- Two-digit field parser for the datetime model. -/
def take2Digits : List Char → Option (ℕ × List Char)
  | a :: b :: r => if a.isDigit && b.isDigit then some (digitsVal [a, b], r) else none
  | _ => none

/-- Four-digit field parser for the datetime model. -/
def take4Digits : List Char → Option (ℕ × List Char)
  | a :: b :: c :: d :: r =>
    if a.isDigit && b.isDigit && c.isDigit && d.isDigit then
      some (digitsVal [a, b, c, d], r)
    else none
  | _ => none

/-- Encoding of a datetime as the integer `YYYYMMDDHHMMSS`. -/
def encodeDT (y mo d h mi s : ℕ) : ℤ :=
  (((((y * 100 + mo) * 100 + d) * 100 + h) * 100 + mi) * 100 + s : ℕ)

/-- Time-of-day suffix `HH:MM[:SS]` of an ISO datetime string. -/
def parseTime : List Char → Option (ℕ × ℕ × ℕ)
  | l =>
    match take2Digits l with
    | none => none
    | some (h, r1) =>
      match r1 with
      | ':' :: r2 =>
        match take2Digits r2 with
        | none => none
        | some (mi, r3) =>
          match r3 with
          | [] => if h ≤ 23 && mi ≤ 59 then some (h, mi, 0) else none
          | ':' :: r4 =>
            match take2Digits r4 with
            | some (s, []) => if h ≤ 23 && mi ≤ 59 && s ≤ 59 then some (h, mi, s) else none
            | _ => none
          | _ => none
      | _ => none

/-- Model of `datetime.fromisoformat` on `YYYY-MM-DD[sep HH:MM[:SS]]` plus the
shim's `strptime` fallbacks `%H:%M` and `%H:%M:%S` (which produce year-1900
datetimes).  Field-range checks approximate calendar validity (a day count per
month is not modelled; no claim depends on it). -/
def dtParse (s : String) : Option ℤ :=
  let l := s.toList
  match take4Digits l with
  | some (y, '-' :: r1) =>
    (match take2Digits r1 with
     | some (mo, '-' :: r2) =>
       (match take2Digits r2 with
        | some (d, r3) =>
          if 1 ≤ mo && mo ≤ 12 && 1 ≤ d && d ≤ 31 then
            match r3 with
            | [] => some (encodeDT y mo d 0 0 0)
            | sep :: r4 =>
              if sep = 'T' || sep = ' ' then
                (parseTime r4).map (fun t => encodeDT y mo d t.1 t.2.1 t.2.2)
              else none
          else none
        | _ => none)
     | _ => none)
  | _ => (parseTime l).map (fun t => encodeDT 1900 1 1 t.1 t.2.1 t.2.2)

/-- `pd.to_datetime(series, errors="coerce")` entrywise: datetimes pass,
strings parse (`none` on failure), and numbers stringify to forms neither ISO
nor `HH:MM`, hence coerce to `None`. -/
def to_datetimeCell (c : Cell) : Cell :=
  match c with
  | none => none
  | some (.dt t) => some (.dt t)
  | some (.str s) =>
    match dtParse s with
    | some t => some (.dt t)
    | none => none
  | some (.int _) => none
  | some (.float _) => none

/-- `pd.to_numeric(series, errors="coerce")` entrywise: `float(v)` with
failures becoming `None`. -/
def to_numericCell (c : Cell) : Cell :=
  match c with
  | none => none
  | some v =>
    match pyFloatOfValue v with
    | some q => some (.float q)
    | none => none

/-- `series.astype("Int64")` entrywise: `int(v)` with failures becoming
`None`. -/
def astypeInt64Cell (c : Cell) : Cell :=
  match c with
  | none => none
  | some v =>
    match pyIntOfValue v with
    | some z => some (.int z)
    | none => none

/-- `series.astype("Float64")` entrywise: `float(v)` with failures becoming
`None`. -/
def astypeFloat64Cell (c : Cell) : Cell :=
  match c with
  | none => none
  | some v =>
    match pyFloatOfValue v with
    | some q => some (.float q)
    | none => none

/-- `series.round()` entrywise: `round(float(v))`, half to even, yielding a
Python int.  In the pipeline this always follows the `Float64` cast, so cells
are numeric or null; on a string or datetime Python would raise
(unreachable). -/
def roundCell (c : Cell) : Cell :=
  match c with
  | none => none
  | some (.float q) => some (.int q.round)
  | some (.int z) => some (.int z)
  | some _ => none

/-- `cleaning.py` lines 244-249: iterate over a snapshot of the column list,
dropping every observation-prefixed column except the first-captured
`obs__finish_position`, which is remembered as the finish source. -/
def dropObsLoop : List String → DataFrame → Option String → DataFrame × Option String
  | [], df, fs => (df, fs)
  | c :: rest, df, fs =>
    if strStartsWith c OBS_PREFIX then
      if c = "obs__finish_position" && fs.isNone then dropObsLoop rest df (some c)
      else dropObsLoop rest (dropColDF df c) fs
    else dropObsLoop rest df fs

/-- `cleaning.py` lines 293-295: add any schema column still absent, filled
with nulls, in schema order. -/
def addMissingSchemaCols : List String → DataFrame → DataFrame
  | [], df => df
  | c :: rest, df =>
    addMissingSchemaCols rest
      (if df.cols.contains c then df else setCol df c (df.rows.map (fun _ => (none : Cell))))

/-- `df[cols]` for a list of columns: projects every row onto exactly those
keys (missing keys read as null) and rebuilds the frame. -/
def projectCols (df : DataFrame) (cols : List String) : DataFrame :=
  mkDF (df.rows.map (fun r => cols.map (fun c => (c, Row.get r c))))

/-- `cleaning.py` `clean_fields` (lines 230-296), step for step: drop `obs__`
columns capturing the finish source, fail when no finish column exists, parse
dates and times, coerce numerics, parse weights and distances, derive and
round the finish position, drop the raw source, drop rows with null
essentials, drop non-positive age/distance/runner counts, cast identifiers,
drop rows whose identifiers failed to cast, add missing schema columns and
project onto the schema order.  The opening `df.copy()` (line 240) rebuilds
the frame from its rows, so the stored column list is recomputed from the
first row (and wiped entirely for a zero-row frame). -/
def clean_fields (df0 : DataFrame) : Except String DataFrame :=
  let dfc := mkDF df0.rows
  let p := dropObsLoop dfc.cols dfc none
  let df := p.1
  let fs := p.2
  if fs.isNone && !(df.cols.contains "finish_position") then
    .error "Finish position column missing; expected obs__finish_position or finish_position"
  else
    let df := setCol df "date" ((getCol df "date").map to_datetimeCell)
    let df := setCol df "race_time" ((getCol df "race_time").map to_datetimeCell)
    let df := setCol df "age" ((getCol df "age").map to_numericCell)
    let df := setCol df "draw" ((getCol df "draw").map to_numericCell)
    let df := setCol df "weight_lbs"
      ((getCol df "weight_lbs").map (fun c => (_parse_weight c).map .float))
    let df := setCol df "weight_lbs" ((getCol df "weight_lbs").map to_numericCell)
    let df := setCol df "distance"
      ((getCol df "distance").map (fun c => (_parse_distance c).map .float))
    let df := setCol df "distance" ((getCol df "distance").map to_numericCell)
    let df := setCol df "n_runners"
      ((getCol df "n_runners").map (fun c => astypeInt64Cell (to_numericCell c)))
    let finishVals := match fs with | some c => getCol df c | none => getCol df "finish_position"
    let df := setCol df "finish_position"
      (finishVals.map (fun c => astypeFloat64Cell ((_standardize_finish c).map .float)))
    let df := setCol df "finish_position"
      ((getCol df "finish_position").map (fun c => astypeInt64Cell (roundCell c)))
    let df := match fs with | some c => dropColDF df c | none => df
    let df := dropnaDF df ["race_id", "horse_id", "date", "race_time", "n_runners", "distance"]
    let df := filterMaskDF df ((getCol df "age").map (cellGt · (Q.ofNat 0)))
    let df := filterMaskDF df ((getCol df "distance").map (cellGt · (Q.ofNat 0)))
    let df := filterMaskDF df ((getCol df "n_runners").map (cellGt · (Q.ofNat 0)))
    let df := setCol df "race_id"
      ((getCol df "race_id").map (fun c => astypeInt64Cell (to_numericCell c)))
    let df := setCol df "horse_id"
      ((getCol df "horse_id").map (fun c => astypeInt64Cell (to_numericCell c)))
    let df := dropnaDF df ["race_id", "horse_id"]
    let df := addMissingSchemaCols SCHEMA_ordered_columns df
    .ok (projectCols df SCHEMA_ordered_columns)

/-- The errors `validate_race_invariants` can raise.  `cmpTypeError` models
the uncaught `TypeError` Python raises when `Series.min()` returns `None`
(all non-null finish values failed the `int` cast) and is compared with an
integer. -/
inductive InvErr where
  | inconsistent (race : Cell) (field : String)
  | countMismatch (race : Cell) (expected : Cell) (found : ℕ)
  | badFinish (race : Cell)
  | cmpTypeError (race : Cell)
deriving DecidableEq

/-- `cleaning.py` line 310: the fields required to be constant per race. -/
def INVARIANT_FIELDS : List String := ["date", "racecourse", "race_type_simple", "distance"]

/-- Python `len(group) != expected` where `expected` is a cell: numeric cells
compare numerically, every other cell (including `None`) is unequal to the
length. -/
def cellEqLen (c : Cell) (n : ℕ) : Bool :=
  match c with
  | some (.int z) => decide (z = (n : ℤ))
  | some (.float q) => Q.eqv q (Q.ofNat n)
  | _ => false

/-- Python `finish_vals.max() > expected` for an integer max; `expected` has
already passed the count check, so it is numeric (other cases unreachable). -/
def intGtCell (z : ℤ) (c : Cell) : Bool :=
  match c with
  | some (.int w) => decide (w < z)
  | some (.float q) => Q.lt q (Q.ofInt z)
  | _ => false

/-- The per-group body of `validate_race_invariants` (lines 310-321):
field-invariance checks in listed order, then the participant-count check
against the group's first `n_runners`, then the finish-position range
check on the non-null finish values (cast by `int`, failed casts skipped by
`min`/`max`). -/
def checkGroup (race : Cell) (g : DataFrame) : Except InvErr Unit :=
  match INVARIANT_FIELDS.find? (fun f => decide (1 < nuniqueDropna (getCol g f))) with
  | some f => .error (.inconsistent race f)
  | none =>
    let expected : Cell := (getCol g "n_runners").headD none
    if !(cellEqLen expected g.rows.length) then
      .error (.countMismatch race expected g.rows.length)
    else
      let finishCast := ((getCol g "finish_position").filterMap id).map pyIntOfValue
      if finishCast.isEmpty then .ok ()
      else
        let ints := finishCast.filterMap id
        match ints.min?, ints.max? with
        | some mn, some mx =>
          if mn < 1 || intGtCell mx expected then .error (.badFinish race) else .ok ()
        | _, _ => .error (.cmpTypeError race)

/-- Sequential traversal of the groups, stopping at the first violation. -/
def validateGroups : List (Cell × DataFrame) → Except InvErr Unit
  | [] => .ok ()
  | (race, g) :: rest =>
    match checkGroup race g with
    | .error e => .error e
    | .ok () => validateGroups rest

/-- `cleaning.py` `validate_race_invariants` (lines 299-321). -/
def validate_race_invariants (df : DataFrame) : Except InvErr Unit :=
  validateGroups (groupbyDF df "race_id")

/-- `cleaning.py` line 327: the chronological sort key. -/
def SORT_KEYS : List String := ["date", "race_time", "race_id"]

/-- `cleaning.py` `enforce_chronological_order` (lines 324-329): stable sort
by `(date, race_time, race_id)`, then `reset_index(drop=True)` (which rebuilds
the frame from the same rows). -/
def enforce_chronological_order (df : DataFrame) : DataFrame :=
  mkDF (sort_valuesDF df SORT_KEYS).rows

/-- `save_cleaned_data` / `DataFrame.to_csv` (cleaning lines 332-337, shim
lines 226-235), modelled as the header of the persisted file: an empty frame
writes an empty file with no header (`none`); otherwise the header row is
exactly the frame's stored column list.  Row serialisation is not modelled —
no claim depends on it. -/
def save_cleaned_data (df : DataFrame) : Option (List String) :=
  if df.rows.isEmpty then none else some df.cols

/-- The error type of the whole pipeline run. -/
inductive PipelineError where
  | schema (e : SchemaErr)
  | cleaning (msg : String)
  | integrity (e : InvErr)
deriving DecidableEq

/-- The `__main__` pipeline (lines 340-346) after loading: schema validation,
cleaning, race invariants, chronological order, persistence; each stage runs
only when every earlier stage succeeded.  The result is the persisted file's
header. -/
def run_pipeline (df : DataFrame) : Except PipelineError (Option (List String)) :=
  match validate_schema df with
  | .error e => .error (.schema e)
  | .ok () =>
    match clean_fields df with
    | .error m => .error (.cleaning m)
    | .ok cleaned =>
      match validate_race_invariants cleaned with
      | .error e => .error (.integrity e)
      | .ok () => .ok (save_cleaned_data (enforce_chronological_order cleaned))

/-- A frame whose stored column list agrees with every row's key list — the
shape of every frame the shim builds from uniform records (e.g. `read_csv`
output). -/
def WellFormed (df : DataFrame) : Prop := ∀ r ∈ df.rows, Row.keys r = df.cols

/-- A fully healthy raw row: all twelve schema columns, parseable values. -/
def T0row : Row :=
  [("race_id", some (.int 1)), ("horse_id", some (.int 1)),
   ("date", some (.str "2021-01-01")), ("race_time", some (.str "13:05")),
   ("racecourse", some (.str "A")), ("race_type_simple", some (.str "flat")),
   ("distance", some (.float ⟨1000, 1⟩)), ("n_runners", some (.int 1)),
   ("draw", some (.float ⟨1, 1⟩)), ("age", some (.float ⟨4, 1⟩)),
   ("weight_lbs", some (.float ⟨140, 1⟩)), ("finish_position", some (.int 1))]

/-- One healthy row: the pipeline persists a file with the schema header. -/
def T0 : DataFrame := mkDF [T0row]

/-- The cleaned frame produced from `T0`. -/
def T0clean : DataFrame :=
  match clean_fields T0 with
  | .ok c => c
  | .error _ => mkDF []

/-- Like `T0row` but with a null age, so the row-filter stage drops the row. -/
def T1row : Row :=
  [("race_id", some (.int 1)), ("horse_id", some (.int 1)),
   ("date", some (.str "2021-01-01")), ("race_time", some (.str "13:05")),
   ("racecourse", some (.str "A")), ("race_type_simple", some (.str "flat")),
   ("distance", some (.float ⟨1000, 1⟩)), ("n_runners", some (.int 1)),
   ("draw", some (.float ⟨1, 1⟩)), ("age", none),
   ("weight_lbs", some (.float ⟨140, 1⟩)), ("finish_position", some (.int 1))]

/-- A schema-valid raw table all of whose rows get filtered out: the pipeline
succeeds but persists an empty, headerless file. -/
def T1 : DataFrame := mkDF [T1row]

/-- A cleaned-shape row for invariant-validator tables: race 1, runner `h`,
`n` declared runners, finish `fin`, `racecourse` passed explicitly. -/
def invRow (h : ℤ) (n : ℤ) (fin : ℤ) (course : Cell) (day : ℤ) : Row :=
  [("race_id", some (.int 1)), ("horse_id", some (.int h)), ("date", some (.dt day)),
   ("race_time", some (.dt 19000101130500)), ("racecourse", course),
   ("race_type_simple", some (.str "flat")), ("distance", some (.float ⟨1000, 1⟩)),
   ("n_runners", some (.int n)), ("draw", some (.float ⟨1, 1⟩)),
   ("age", some (.float ⟨4, 1⟩)), ("weight_lbs", some (.float ⟨140, 1⟩)),
   ("finish_position", some (.int fin))]

/-- One race, two rows, `racecourse` null in both rows: zero distinct
non-null values in an invariant field. -/
def T2 : DataFrame :=
  mkDF [invRow 1 2 1 none 20210101000000, invRow 2 2 2 none 20210101000000]

/-- One race with two distinct dates and a participant-count mismatch
(first-row `n_runners` is 5, but the group has 2 rows). -/
def T3 : DataFrame :=
  mkDF [invRow 1 5 1 (some (.str "A")) 20210101000000,
        invRow 2 5 2 (some (.str "A")) 20210202000000]

/-- One race whose two rows declare different `n_runners` (2 and 99); the
first row's value matches the row count. -/
def T10 : DataFrame :=
  mkDF [invRow 1 2 1 (some (.str "A")) 20210101000000,
        invRow 2 99 2 (some (.str "A")) 20210101000000]

/-- The same two rows as `T10` in the opposite order, so the first row
declares 99. -/
def T10c : DataFrame :=
  mkDF [invRow 2 99 2 (some (.str "A")) 20210101000000,
        invRow 1 2 1 (some (.str "A")) 20210101000000]

/-- A raw row missing the `age` column entirely. -/
def T7row : Row :=
  [("race_id", some (.int 10)), ("horse_id", some (.int 20)),
   ("date", some (.str "2021-01-01")), ("race_time", some (.str "13:05")),
   ("racecourse", some (.str "A")), ("race_type_simple", some (.str "flat")),
   ("distance", some (.float ⟨1000, 1⟩)), ("n_runners", some (.int 2)),
   ("draw", some (.float ⟨1, 1⟩)), ("weight_lbs", some (.float ⟨140, 1⟩)),
   ("finish_position", some (.int 1))]

/-- A raw table with a missing required column and a duplicate
`(race_id, horse_id)` pair at once. -/
def T7 : DataFrame := mkDF [T7row, T7row]

/-- A one-row table carrying only `race_id` and `finish_position`. -/
def T9 : DataFrame := mkDF [[("race_id", some (.int 1)), ("finish_position", some (.int 1))]]

/-- A zero-row frame whose stored column list nonetheless contains
`finish_position` (buildable in the shim via `df["finish_position"] = []`). -/
def CX9 : DataFrame := ⟨["finish_position"], []⟩

/-! ## Helper lemmas: the numeric order and equivalence -/

theorem Q.den_pos (x : Q) : (0 : ℤ) < (x.den : ℤ) := by
  exact_mod_cast x.den.pos

theorem Q.le_total_law (x y : Q) : (Q.le x y || Q.le y x) = true := by
  simp only [Q.le, Bool.or_eq_true, decide_eq_true_eq]
  omega

theorem Q.le_trans_law (x y z : Q) (h1 : Q.le x y = true) (h2 : Q.le y z = true) :
    Q.le x z = true := by
  simp only [Q.le, decide_eq_true_eq] at h1 h2 ⊢
  have hx := Q.den_pos x
  have hy := Q.den_pos y
  have hz := Q.den_pos z
  nlinarith [mul_le_mul_of_nonneg_right h1 (le_of_lt hz),
    mul_le_mul_of_nonneg_right h2 (le_of_lt hx)]

theorem qEqv_refl (x : Q) : Q.eqv x x = true := by
  simp [Q.eqv]

theorem qEqv_symm (x y : Q) (h : Q.eqv x y = true) : Q.eqv y x = true := by
  simp only [Q.eqv, decide_eq_true_eq] at h ⊢
  omega

theorem qEqv_trans (x y z : Q) (h1 : Q.eqv x y = true) (h2 : Q.eqv y z = true) :
    Q.eqv x z = true := by
  simp only [Q.eqv, decide_eq_true_eq] at h1 h2 ⊢
  have hy := Q.den_pos y
  have h3 : x.num * (z.den : ℤ) * (y.den : ℤ) = z.num * (x.den : ℤ) * (y.den : ℤ) := by
    nlinarith
  exact mul_right_cancel₀ (ne_of_gt hy) h3

theorem Q.eqv_le (x y : Q) (h : Q.eqv x y = true) : Q.le x y = true := by
  simp only [Q.eqv, decide_eq_true_eq] at h
  simp only [Q.le, decide_eq_true_eq]
  omega

theorem pvEqv_refl (a : PValue) : PValue.eqv a a = true := by
  cases a <;> simp [PValue.eqv, Q.eqv]

theorem pvEqv_symm (a b : PValue) (h : PValue.eqv a b = true) :
    PValue.eqv b a = true := by
  cases a <;> cases b <;> simp_all [PValue.eqv] <;> exact qEqv_symm _ _ h

theorem pvEqv_trans (a b c : PValue) (h1 : PValue.eqv a b = true)
    (h2 : PValue.eqv b c = true) : PValue.eqv a c = true := by
  cases a <;> cases b <;> cases c <;> simp_all [PValue.eqv] <;>
    first
    | exact qEqv_trans _ _ _ h1 h2
    | { have h3 := qEqv_trans _ _ _ h1 h2
        simp [Q.eqv, Q.ofInt] at h3
        omega }

theorem cellEqv_refl (a : Cell) : Cell.eqv a a = true := by
  cases a <;> simp [Cell.eqv, pvEqv_refl]

theorem cellEqv_symm (a b : Cell) (h : Cell.eqv a b = true) : Cell.eqv b a = true := by
  cases a <;> cases b <;> simp_all [Cell.eqv] <;> exact pvEqv_symm _ _ h

theorem cellEqv_trans (a b c : Cell) (h1 : Cell.eqv a b = true)
    (h2 : Cell.eqv b c = true) : Cell.eqv a c = true := by
  cases a <;> cases b <;> cases c <;> simp_all [Cell.eqv]
  exact pvEqv_trans _ _ _ h1 h2

/-! ## Helper lemmas: the row order used by the sort -/

theorem charListLe_total (xs ys : List Char) : (charListLe xs ys || charListLe ys xs) = true := by
  induction xs generalizing ys with
  | nil => simp [charListLe]
  | cons a xs ih =>
    cases ys with
    | nil => simp [charListLe]
    | cons b ys =>
      by_cases hab : a < b
      · simp [charListLe, hab]
      · by_cases hba : b < a
        · simp [charListLe, hab, hba]
        · simpa [charListLe, hab, hba] using ih ys

theorem charListLe_trans (xs ys zs : List Char) (h1 : charListLe xs ys = true)
    (h2 : charListLe ys zs = true) : charListLe xs zs = true := by
  induction xs generalizing ys zs with
  | nil => simp [charListLe]
  | cons a xs ih =>
    cases ys with
    | nil => simp [charListLe] at h1
    | cons b ys =>
      cases zs with
      | nil => simp [charListLe] at h2
      | cons c zs =>
        simp only [charListLe] at h1 h2 ⊢
        have hbc : ¬ c < b := by
          intro hcb
          rcases lt_trichotomy b c with h | h | h
          · exact absurd (lt_trans h hcb) (lt_irrefl b)
          · exact absurd (h ▸ hcb) (lt_irrefl c)
          · simp [not_lt_of_gt h, h] at h2
        rcases lt_trichotomy a b with h | h | h
        · rcases lt_trichotomy b c with h' | h' | h'
          · simp [lt_trans h h']
          · simp [h' ▸ h]
          · exact absurd h' hbc
        · subst h
          simp only [lt_irrefl, if_false] at h1
          rcases lt_trichotomy a c with h' | h' | h'
          · simp [h']
          · subst h'
            simp only [lt_irrefl, if_false] at h2 ⊢
            exact ih ys zs h1 h2
          · exact absurd h' hbc
        · simp [not_lt_of_gt h, h] at h1

theorem strLe_total (a b : String) : (strLe a b || strLe b a) = true :=
  charListLe_total _ _

theorem strLe_trans (a b c : String) (h1 : strLe a b = true) (h2 : strLe b c = true) :
    strLe a c = true :=
  charListLe_trans _ _ _ h1 h2

theorem cellLe_rank (x y : Cell) (h : cellLe x y = true) : cellRank x ≤ cellRank y := by
  unfold cellLe at h
  by_cases hxy : cellRank x < cellRank y
  · exact le_of_lt hxy
  · by_cases hyx : cellRank y < cellRank x
    · simp [hxy, hyx] at h
    · omega

theorem cellLe_total (a b : Cell) : (cellLe a b || cellLe b a) = true := by
  unfold cellLe
  rcases Nat.lt_trichotomy (cellRank a) (cellRank b) with h | h | h
  · simp [h]
  · simp only [h, lt_irrefl, if_false]
    by_cases h1 : cellRank b = 1
    · simpa [h1] using Q.le_total_law (cellNum a) (cellNum b)
    · by_cases h2 : cellRank b = 2
      · simpa [h1, h2] using strLe_total (cellStr a) (cellStr b)
      · by_cases h3 : cellRank b = 3
        · simpa [h1, h2, h3] using le_total (cellDt a) (cellDt b)
        · simp [h1, h2, h3]
  · simp [h, not_lt_of_gt h]

theorem cellLe_trans (a b c : Cell) (h1 : cellLe a b = true) (h2 : cellLe b c = true) :
    cellLe a c = true := by
  have r1 := cellLe_rank _ _ h1
  have r2 := cellLe_rank _ _ h2
  by_cases hac : cellRank a < cellRank c
  · unfold cellLe
    simp [hac]
  · have e1 : cellRank a = cellRank c := by omega
    have e2 : cellRank b = cellRank c := by omega
    unfold cellLe at h1 h2 ⊢
    simp only [e1, e2, lt_irrefl, if_false] at h1 h2 ⊢
    by_cases k1 : cellRank c = 1
    · simp only [k1, if_true] at h1 h2 ⊢
      exact Q.le_trans_law _ _ _ h1 h2
    · by_cases k2 : cellRank c = 2
      · simp only [k1, k2, if_false, if_true] at h1 h2 ⊢
        exact strLe_trans _ _ _ h1 h2
      · by_cases k3 : cellRank c = 3
        · simp [k1, k2, k3] at h1 h2 ⊢
          omega
        · simp [k1, k2, k3]

theorem lexLe_cons_iff (a b : Cell) (xs ys : List Cell) :
    lexLe (a :: xs) (b :: ys) = true ↔
      (cellLe a b = true ∧ cellLe b a = false)
      ∨ (cellLe a b = true ∧ cellLe b a = true ∧ lexLe xs ys = true) := by
  simp only [lexLe, Bool.or_eq_true, Bool.and_eq_true, Bool.not_eq_true',
    decide_eq_true_eq]
  tauto

theorem lexLe_total (xs ys : List Cell) : (lexLe xs ys || lexLe ys xs) = true := by
  induction xs generalizing ys with
  | nil => simp [lexLe]
  | cons a xs ih =>
    cases ys with
    | nil => simp [lexLe]
    | cons b ys =>
      rw [Bool.or_eq_true, lexLe_cons_iff, lexLe_cons_iff]
      by_cases h1 : cellLe a b = true
      · by_cases h2 : cellLe b a = true
        · have h3 := ih ys
          rw [Bool.or_eq_true] at h3
          rcases h3 with h | h
          · exact Or.inl (Or.inr ⟨h1, h2, h⟩)
          · exact Or.inr (Or.inr ⟨h2, h1, h⟩)
        · have h2f : cellLe b a = false := by
            revert h2
            cases cellLe b a <;> simp
          exact Or.inl (Or.inl ⟨h1, h2f⟩)
      · have h1f : cellLe a b = false := by
          revert h1
          cases cellLe a b <;> simp
        have h2 : cellLe b a = true := by
          have h3 := cellLe_total a b
          rw [h1f] at h3
          simpa using h3
        exact Or.inr (Or.inl ⟨h2, h1f⟩)

theorem lexLe_trans (xs ys zs : List Cell) (h1 : lexLe xs ys = true)
    (h2 : lexLe ys zs = true) : lexLe xs zs = true := by
  induction xs generalizing ys zs with
  | nil => simp [lexLe]
  | cons a xs ih =>
    cases ys with
    | nil => simp [lexLe] at h1
    | cons b ys =>
      cases zs with
      | nil => simp [lexLe] at h2
      | cons c zs =>
        rw [lexLe_cons_iff] at h1 h2 ⊢
        rcases h1 with ⟨hab, hnba⟩ | ⟨hab, hba, hrec1⟩ <;>
          rcases h2 with ⟨hbc, hncb⟩ | ⟨hbc, hcb, hrec2⟩
        · refine Or.inl ⟨cellLe_trans a b c hab hbc, ?_⟩
          by_contra hca
          simp only [Bool.not_eq_false] at hca
          have h3 := cellLe_trans b c a hbc hca
          rw [h3] at hnba
          exact Bool.noConfusion hnba
        · refine Or.inl ⟨cellLe_trans a b c hab hbc, ?_⟩
          by_contra hca
          simp only [Bool.not_eq_false] at hca
          have h3 := cellLe_trans b c a hbc hca
          rw [h3] at hnba
          exact Bool.noConfusion hnba
        · refine Or.inl ⟨cellLe_trans a b c hab hbc, ?_⟩
          by_contra hca
          simp only [Bool.not_eq_false] at hca
          have h3 := cellLe_trans c a b hca hab
          rw [h3] at hncb
          exact Bool.noConfusion hncb
        · exact Or.inr ⟨cellLe_trans a b c hab hbc, cellLe_trans c b a hcb hba,
            ih ys zs hrec1 hrec2⟩

theorem rowLeBy_total (cols : List String) (r1 r2 : Row) :
    (rowLeBy cols r1 r2 || rowLeBy cols r2 r1) = true :=
  lexLe_total _ _

theorem rowLeBy_trans (cols : List String) (r1 r2 r3 : Row)
    (h1 : rowLeBy cols r1 r2 = true) (h2 : rowLeBy cols r2 r3 = true) :
    rowLeBy cols r1 r3 = true :=
  lexLe_trans _ _ _ h1 h2

/-! ## Helper lemmas: the stable sort -/

theorem insertLe_perm (le : α → α → Bool) (a : α) (l : List α) :
    List.Perm (insertLe le a l) (a :: l) := by
  induction l with
  | nil => simp [insertLe]
  | cons b l ih =>
    simp only [insertLe]
    by_cases h : le a b = true
    · simp [h]
    · simp only [h, if_false]
      exact (ih.cons b).trans (List.Perm.swap a b l)

theorem stableSort_perm (le : α → α → Bool) (l : List α) :
    List.Perm (stableSort le l) l := by
  induction l with
  | nil => simp [stableSort]
  | cons a l ih =>
    simp only [stableSort]
    exact (insertLe_perm le a (stableSort le l)).trans (ih.cons a)

theorem insertLe_sorted (le : α → α → Bool)
    (htr : ∀ x y z, le x y = true → le y z = true → le x z = true)
    (hto : ∀ x y, (le x y || le y x) = true)
    (a : α) (l : List α) (h : l.Pairwise (le · · = true)) :
    (insertLe le a l).Pairwise (le · · = true) := by
  induction l with
  | nil => simp [insertLe]
  | cons b l ih =>
    simp only [insertLe]
    by_cases hab : le a b = true
    · rw [if_pos hab]
      refine List.Pairwise.cons ?_ h
      intro x hx
      rcases List.mem_cons.mp hx with rfl | hx
      · exact hab
      · exact htr a b x hab ((List.pairwise_cons.mp h).1 x hx)
    · have hba : le b a = true := by
        have h3 := hto a b
        revert h3
        rw [Bool.or_eq_true]
        intro h3
        rcases h3 with h3 | h3
        · exact absurd h3 hab
        · exact h3
      simp only [hab, if_false]
      rw [List.pairwise_cons] at h
      refine List.Pairwise.cons ?_ (ih h.2)
      intro x hx
      have hx2 := (insertLe_perm le a l).mem_iff.mp hx
      rcases List.mem_cons.mp hx2 with rfl | hx3
      · exact hba
      · exact h.1 x hx3

theorem stableSort_sorted (le : α → α → Bool)
    (htr : ∀ x y z, le x y = true → le y z = true → le x z = true)
    (hto : ∀ x y, (le x y || le y x) = true)
    (l : List α) : (stableSort le l).Pairwise (le · · = true) := by
  induction l with
  | nil => simp [stableSort]
  | cons a l ih =>
    exact insertLe_sorted le htr hto a _ ih

theorem insertLe_filter (le : α → α → Bool) (p : α → Bool) (a : α) (l : List α)
    (hpa : ∀ b ∈ l, p b = true → p a = true → le a b = true) :
    (insertLe le a l).filter p = if p a then a :: l.filter p else l.filter p := by
  induction l with
  | nil => simp [insertLe, List.filter_cons]
  | cons b l ih =>
    simp only [insertLe]
    by_cases hab : le a b = true
    · simp [hab, List.filter_cons]
    · simp only [hab, if_false]
      have ih2 := ih (fun x hx => hpa x (List.mem_cons_of_mem b hx))
      by_cases hpa2 : p a = true
      · have hpb : p b = false := by
          by_contra hpb
          simp only [Bool.not_eq_false] at hpb
          exact absurd (hpa b (List.mem_cons_self b l) hpb hpa2) hab
        simp [List.filter_cons, hpb, ih2, hpa2]
      · have hres : List.filter p (insertLe le a l) = List.filter p l := by
          rw [ih2, if_neg hpa2]
        simp [List.filter_cons, hres, hpa2]

theorem stableSort_filter (le : α → α → Bool) (p : α → Bool)
    (hp : ∀ x y, p x = true → p y = true → le x y = true) (l : List α) :
    (stableSort le l).filter p = l.filter p := by
  induction l with
  | nil => simp [stableSort]
  | cons a l ih =>
    simp only [stableSort]
    rw [insertLe_filter le p a _ (fun b _ hb ha => hp a b ha hb), ih]
    cases hpa : p a <;> simp [List.filter_cons, hpa]

/-! ## Helper lemmas: Python equality versus the sort order -/

theorem charListLe_refl (l : List Char) : charListLe l l = true := by
  induction l with
  | nil => rfl
  | cons a l ih => simp [charListLe, ih]

theorem cellLe_refl (a : Cell) : cellLe a a = true := by
  rcases a with _ | v
  · decide
  · rcases v with z | q | s | t
    · simp [cellLe, cellRank, cellNum, Q.le]
    · simp [cellLe, cellRank, cellNum, Q.le]
    · simp [cellLe, cellRank, cellStr, strLe, charListLe_refl]
    · simp [cellLe, cellRank, cellDt]

theorem cellLe_of_eqv (a b : Cell) (h : Cell.eqv a b = true) : cellLe a b = true := by
  rcases a with _ | va <;> rcases b with _ | vb
  · decide
  · simp [Cell.eqv] at h
  · simp [Cell.eqv] at h
  · rcases va with z | q | s | t <;> rcases vb with z2 | q2 | s2 | t2 <;>
      simp only [Cell.eqv, PValue.eqv, decide_eq_true_eq] at h <;>
      first
      | simp at h
      | (subst h; exact cellLe_refl _)
      | (simp [cellLe, cellRank, cellNum]; exact Q.eqv_le _ _ h)

theorem cellsEqv_cons_iff (a b : Cell) (xs ys : List Cell) :
    cellsEqv (a :: xs) (b :: ys) = true ↔
      Cell.eqv a b = true ∧ cellsEqv xs ys = true := by
  simp only [cellsEqv, List.zip_cons_cons, List.all_cons, List.length_cons,
    Bool.and_eq_true, beq_iff_eq, Nat.succ_inj]
  tauto

theorem cellsEqv_symm (xs ys : List Cell) (h : cellsEqv xs ys = true) :
    cellsEqv ys xs = true := by
  induction xs generalizing ys with
  | nil =>
    cases ys with
    | nil => exact h
    | cons b ys => simp [cellsEqv] at h
  | cons a xs ih =>
    cases ys with
    | nil => simp [cellsEqv] at h
    | cons b ys =>
      rw [cellsEqv_cons_iff] at h ⊢
      exact ⟨cellEqv_symm _ _ h.1, ih ys h.2⟩

theorem cellsEqv_trans (xs ys zs : List Cell) (h1 : cellsEqv xs ys = true)
    (h2 : cellsEqv ys zs = true) : cellsEqv xs zs = true := by
  induction xs generalizing ys zs with
  | nil =>
    cases ys with
    | nil => exact h2
    | cons b ys => simp [cellsEqv] at h1
  | cons a xs ih =>
    cases ys with
    | nil => simp [cellsEqv] at h1
    | cons b ys =>
      cases zs with
      | nil => simp [cellsEqv] at h2
      | cons c zs =>
        rw [cellsEqv_cons_iff] at h1 h2 ⊢
        exact ⟨cellEqv_trans _ _ _ h1.1 h2.1, ih ys zs h1.2 h2.2⟩

theorem lexLe_of_cellsEqv (xs ys : List Cell) (h : cellsEqv xs ys = true) :
    lexLe xs ys = true := by
  induction xs generalizing ys with
  | nil => simp [lexLe]
  | cons a xs ih =>
    cases ys with
    | nil => simp [cellsEqv] at h
    | cons b ys =>
      rw [cellsEqv_cons_iff] at h
      rw [lexLe_cons_iff]
      exact Or.inr ⟨cellLe_of_eqv _ _ h.1,
        cellLe_of_eqv _ _ (cellEqv_symm _ _ h.1), ih ys h.2⟩

/-- C8: for every cleaned table, `enforce_chronological_order` returns a table
whose rows are non-decreasing in the `(date, race_time, race_id)` key, that is
a permutation of the input, and in which rows with equal keys (Python `==` on
the key tuple) keep their original relative order — a stable sort. -/
theorem C8_enforce_chronological_order (df : DataFrame) :
    List.Perm (enforce_chronological_order df).rows df.rows
    ∧ (enforce_chronological_order df).rows.Pairwise
        (fun r1 r2 => rowLeBy SORT_KEYS r1 r2 = true)
    ∧ ∀ k : List Cell,
        (enforce_chronological_order df).rows.filter
            (fun r => cellsEqv (keyTuple r SORT_KEYS) k)
          = df.rows.filter (fun r => cellsEqv (keyTuple r SORT_KEYS) k) := by
  refine ⟨stableSort_perm _ _,
    stableSort_sorted _ (rowLeBy_trans SORT_KEYS) (rowLeBy_total SORT_KEYS) _, ?_⟩
  intro k
  refine stableSort_filter _ _ ?_ _
  intro r1 r2 h1 h2
  have h3 := cellsEqv_trans _ _ _ h1 (cellsEqv_symm _ _ h2)
  exact lexLe_of_cellsEqv _ _ h3

/-! ## Helper lemmas: characters and numeric literals -/

theorem toList_mk (l : List Char) : (String.mk l).toList = l := rfl

theorem char_toNat_of_isDigit (c : Char) (h : c.isDigit = true) :
    48 ≤ c.toNat ∧ c.toNat ≤ 57 := by
  simp [Char.isDigit] at h
  obtain ⟨h1, h2⟩ := h
  exact ⟨UInt32.le_toNat_of_le (by decide) h1, UInt32.toNat_le_of_le (by decide) h2⟩

theorem toLower_of_isDigit (c : Char) (h : c.isDigit = true) : c.toLower = c := by
  obtain ⟨h1, h2⟩ := char_toNat_of_isDigit c h
  unfold Char.toLower
  rw [if_neg]
  omega

theorem pyIsSpace_of_isDigit (c : Char) (h : c.isDigit = true) : pyIsSpace c = false := by
  simp only [pyIsSpace, Bool.or_eq_false_iff, decide_eq_false_iff_not]
  refine ⟨⟨⟨?_, ?_⟩, ?_⟩, ?_⟩ <;> (intro hc; subst hc; simp [Char.isDigit] at h)

theorem ne_of_isDigit (c x : Char) (h : c.isDigit = true) (hx : x.isDigit = false) :
    c ≠ x := by
  intro hc
  subst hc
  rw [h] at hx
  exact Bool.noConfusion hx

theorem dropWhile_pyIsSpace_eq_self (l : List Char)
    (h : ∀ c ∈ l, pyIsSpace c = false) : l.dropWhile pyIsSpace = l := by
  cases l with
  | nil => rfl
  | cons a t =>
    rw [List.dropWhile_cons, if_neg]
    rw [h a (List.mem_cons_self a t)]
    exact Bool.noConfusion

theorem stripChars_eq_self (l : List Char) (h : ∀ c ∈ l, pyIsSpace c = false) :
    stripChars l = l := by
  unfold stripChars
  rw [dropWhile_pyIsSpace_eq_self l h]
  rw [dropWhile_pyIsSpace_eq_self l.reverse (fun c hc => h c (List.mem_reverse.mp hc))]
  exact List.reverse_reverse l

theorem splitSign_of_digit (c : Char) (t : List Char) (h : c.isDigit = true) :
    splitSign (c :: t) = (1, c :: t) := by
  simp only [splitSign]
  rw [if_neg (ne_of_isDigit c '+' h (by decide)), if_neg (ne_of_isDigit c '-' h (by decide))]

theorem pyFloat_digits (a : List Char) (ha : a.all Char.isDigit = true) (h0 : a ≠ []) :
    pyFloat (String.mk a) = some ⟨(digitsVal a : ℤ), 1⟩ := by
  have hmem : ∀ c ∈ a, c.isDigit = true := List.all_eq_true.mp ha
  obtain ⟨c, t, rfl⟩ : ∃ c t, a = c :: t := by
    cases a with
    | nil => exact absurd rfl h0
    | cons c t => exact ⟨c, t, rfl⟩
  unfold pyFloat
  rw [toList_mk, stripChars_eq_self _ (fun c hc => pyIsSpace_of_isDigit c (hmem c hc)),
    splitSign_of_digit c t (hmem c (List.mem_cons_self c t))]
  simp only
  rw [List.takeWhile_eq_self_iff.mpr hmem, List.dropWhile_eq_nil_iff.mpr
    (fun c hc => by simp [hmem c hc])]
  simp [one_mul]

theorem distLoop_digits (a : List Char) (ha : a.all Char.isDigit = true)
    (l : List Char) (acc : Q) (num : List Char) :
    distLoop (a ++ l) acc num = distLoop l acc (num ++ a) := by
  induction a generalizing num with
  | nil => simp
  | cons c t ih =>
    rw [List.all_cons, Bool.and_eq_true] at ha
    simp only [List.cons_append, distLoop]
    rw [if_pos (by simp [ha.1])]
    rw [show t.append l = t ++ l from rfl, ih ha.2]
    simp

theorem distLoop_m (l : List Char) (acc : Q) (num : List Char) :
    distLoop ('m' :: l) acc num =
      distLoop l
        (Q.add acc (Q.mul ((pyFloat (String.mk num)).getD (Q.ofNat 0)) (Q.ofNat 1760))) [] := by
  simp [distLoop]

theorem distLoop_f (l : List Char) (acc : Q) (num : List Char) :
    distLoop ('f' :: l) acc num =
      distLoop l
        (Q.add acc (Q.mul ((pyFloat (String.mk num)).getD (Q.ofNat 0)) (Q.ofNat 220))) [] := by
  simp [distLoop]

theorem distLoop_y (l : List Char) (acc : Q) (num : List Char) :
    distLoop ('y' :: l) acc num =
      distLoop l (Q.add acc ((pyFloat (String.mk num)).getD (Q.ofNat 0))) [] := by
  simp [distLoop]

theorem Q.add_ones (x y : ℤ) : Q.add ⟨x, 1⟩ ⟨y, 1⟩ = ⟨x + y, 1⟩ := by
  simp [Q.add]

theorem Q.acc3_eq (A B C : ℤ) :
    Q.add (Q.add (Q.add (Q.ofNat 0) (Q.mul ⟨A, 1⟩ (Q.ofNat 1760)))
        (Q.mul ⟨B, 1⟩ (Q.ofNat 220))) ⟨C, 1⟩
      = ⟨A * 1760 + B * 220 + C, 1⟩ := by
  simp [Q.add, Q.mul, Q.ofNat]
  try ring

theorem distLoop_digits_final (d : List Char) (hd : d.all Char.isDigit = true)
    (acc : Q) (num : List Char) : distLoop d acc num = (acc, num ++ d) := by
  have h := distLoop_digits d hd [] acc num
  rw [List.append_nil] at h
  rw [h]
  rfl

theorem posGate_match (N : ℤ) (S : ℕ) (hNS : N = (S : ℤ)) :
    (match (if Q.pos ⟨N, 1⟩ = true then some (⟨N, 1⟩ : Q) else none) with
     | some y => Q.eqv y (Q.ofNat S) = true ∧ 0 < S
     | none => S = 0) := by
  subst hNS
  by_cases hS : 0 < S
  · rw [if_pos (by simp only [Q.pos, decide_eq_true_eq]; exact_mod_cast hS)]
    exact ⟨by simp [Q.eqv, Q.ofNat], hS⟩
  · rw [if_neg (by simp only [Q.pos, decide_eq_true_eq]; intro hcon; exact hS (by exact_mod_cast hcon))]
    omega

theorem parse_distance_str_composite (a b c d : List Char)
    (ha : a.all Char.isDigit = true) (hb : b.all Char.isDigit = true)
    (hc : c.all Char.isDigit = true) (hd : d.all Char.isDigit = true)
    (ha0 : a ≠ []) (hb0 : b ≠ []) (hc0 : c ≠ []) :
    match _parse_distance_str (String.mk (a ++ 'm' :: (b ++ 'f' :: (c ++ 'y' :: d)))) with
    | some y =>
        Q.eqv y (Q.ofNat (digitsVal a * 1760 + digitsVal b * 220 + digitsVal c + digitsVal d))
          = true
        ∧ 0 < digitsVal a * 1760 + digitsVal b * 220 + digitsVal c + digitsVal d
    | none => digitsVal a * 1760 + digitsVal b * 220 + digitsVal c + digitsVal d = 0 := by
  have hamem := List.all_eq_true.mp ha
  have hbmem := List.all_eq_true.mp hb
  have hcmem := List.all_eq_true.mp hc
  have hdmem := List.all_eq_true.mp hd
  have hchars : ∀ x ∈ a ++ 'm' :: (b ++ 'f' :: (c ++ 'y' :: d)),
      pyIsSpace x = false ∧ x.toLower = x := by
    intro x hx
    simp only [List.mem_append, List.mem_cons] at hx
    rcases hx with hx | rfl | hx | rfl | hx | rfl | hx
    · exact ⟨pyIsSpace_of_isDigit x (hamem x hx), toLower_of_isDigit x (hamem x hx)⟩
    · exact ⟨by decide, by decide⟩
    · exact ⟨pyIsSpace_of_isDigit x (hbmem x hx), toLower_of_isDigit x (hbmem x hx)⟩
    · exact ⟨by decide, by decide⟩
    · exact ⟨pyIsSpace_of_isDigit x (hcmem x hx), toLower_of_isDigit x (hcmem x hx)⟩
    · exact ⟨by decide, by decide⟩
    · exact ⟨pyIsSpace_of_isDigit x (hdmem x hx), toLower_of_isDigit x (hdmem x hx)⟩
  have hstr : (pyLower (pyStrip (String.mk (a ++ 'm' :: (b ++ 'f' :: (c ++ 'y' :: d)))))).toList
      = a ++ 'm' :: (b ++ 'f' :: (c ++ 'y' :: d)) := by
    have h1 : pyStrip (String.mk (a ++ 'm' :: (b ++ 'f' :: (c ++ 'y' :: d))))
        = String.mk (a ++ 'm' :: (b ++ 'f' :: (c ++ 'y' :: d))) := by
      unfold pyStrip
      rw [toList_mk, stripChars_eq_self _ (fun x hx => (hchars x hx).1)]
    rw [h1]
    unfold pyLower
    rw [toList_mk, toList_mk]
    have h2 : (a ++ 'm' :: (b ++ 'f' :: (c ++ 'y' :: d))).map Char.toLower
        = (a ++ 'm' :: (b ++ 'f' :: (c ++ 'y' :: d))).map id :=
      List.map_congr_left (fun x hx => (hchars x hx).2)
    rw [h2, List.map_id]
  have hscan : distLoop (a ++ 'm' :: (b ++ 'f' :: (c ++ 'y' :: d))) (Q.ofNat 0) [] =
      (⟨(digitsVal a : ℤ) * 1760 + (digitsVal b : ℤ) * 220 + (digitsVal c : ℤ), 1⟩, d) := by
    rw [distLoop_digits a ha, List.nil_append, distLoop_m, pyFloat_digits a ha ha0,
      Option.getD_some, distLoop_digits b hb, List.nil_append, distLoop_f,
      pyFloat_digits b hb hb0, Option.getD_some, distLoop_digits c hc, List.nil_append,
      distLoop_y, pyFloat_digits c hc hc0, Option.getD_some,
      distLoop_digits_final d hd, List.nil_append, Q.acc3_eq]
  unfold _parse_distance_str
  rw [hstr, hscan]
  dsimp only
  by_cases hd0 : d = []
  · subst hd0
    rw [show pyFloat (String.mk ([] : List Char)) = none from by decide]
    refine posGate_match _ _ ?_
    have hz : digitsVal ([] : List Char) = 0 := rfl
    rw [hz]
    push_cast
    ring
  · rw [pyFloat_digits d hd hd0]
    dsimp only
    rw [Q.add_ones]
    refine posGate_match _ _ ?_
    push_cast
    ring

/-- C4: `_parse_distance` maps null to null; returns plain numeric input
unchanged (as a float, with no positivity gate); on text it accumulates
digits into a numeric token closed by a unit letter, adding miles times 1760,
furlongs times 220 and yards times 1, adds a trailing unit-less numeric
remainder as-is, and returns null unless the accumulated result is strictly
positive (`"2m4f110y"` yields `4510.0`).  It is a total function — it never
raises. -/
theorem C4_parse_distance (a b c d : List Char)
    (ha : a.all Char.isDigit = true) (hb : b.all Char.isDigit = true)
    (hc : c.all Char.isDigit = true) (hd : d.all Char.isDigit = true)
    (ha0 : a ≠ []) (hb0 : b ≠ []) (hc0 : c ≠ []) :
    _parse_distance none = none
    ∧ (∀ z : ℤ, _parse_distance (some (.int z)) = some (Q.ofInt z))
    ∧ (∀ q : Q, _parse_distance (some (.float q)) = some q)
    ∧ (∀ s y, _parse_distance (some (.str s)) = some y → y.pos = true)
    ∧ (match _parse_distance
          (some (.str (String.mk (a ++ 'm' :: (b ++ 'f' :: (c ++ 'y' :: d)))))) with
       | some y =>
          Q.eqv y
            (Q.ofNat (digitsVal a * 1760 + digitsVal b * 220 + digitsVal c + digitsVal d))
            = true
          ∧ 0 < digitsVal a * 1760 + digitsVal b * 220 + digitsVal c + digitsVal d
       | none => digitsVal a * 1760 + digitsVal b * 220 + digitsVal c + digitsVal d = 0)
    ∧ (∃ y, _parse_distance (some (.str "2m4f110y")) = some y
        ∧ Q.eqv y (Q.ofNat 4510) = true) := by
  refine ⟨rfl, fun z => rfl, fun q => rfl, ?_, ?_, by decide⟩
  · intro s y h
    unfold _parse_distance _parse_distance_str at h
    dsimp only at h
    split at h
    next hcond =>
      injection h with h2
      rw [← h2]
      exact hcond
    next hcond => exact Option.noConfusion h
  · exact parse_distance_str_composite a b c d ha hb hc hd ha0 hb0 hc0

/-- Witness for C4 at the spec's own example `"2m4f110y"`. -/
theorem C4_parse_distance_witness :
    ("2".toList.all Char.isDigit = true ∧ "4".toList.all Char.isDigit = true
      ∧ "110".toList.all Char.isDigit = true
      ∧ ([] : List Char).all Char.isDigit = true
      ∧ "2".toList ≠ [] ∧ "4".toList ≠ [] ∧ "110".toList ≠ [])
    ∧ (_parse_distance none = none
      ∧ (∀ z : ℤ, _parse_distance (some (.int z)) = some (Q.ofInt z))
      ∧ (∀ q : Q, _parse_distance (some (.float q)) = some q)
      ∧ (∀ s y, _parse_distance (some (.str s)) = some y → y.pos = true)
      ∧ (match _parse_distance
            (some (.str (String.mk ("2".toList ++ 'm' ::
              ("4".toList ++ 'f' :: ("110".toList ++ 'y' :: ([] : List Char))))))) with
         | some y =>
            Q.eqv y (Q.ofNat (digitsVal "2".toList * 1760 + digitsVal "4".toList * 220
              + digitsVal "110".toList + digitsVal ([] : List Char))) = true
            ∧ 0 < digitsVal "2".toList * 1760 + digitsVal "4".toList * 220
              + digitsVal "110".toList + digitsVal ([] : List Char)
         | none => digitsVal "2".toList * 1760 + digitsVal "4".toList * 220
              + digitsVal "110".toList + digitsVal ([] : List Char) = 0)
      ∧ (∃ y, _parse_distance (some (.str "2m4f110y")) = some y
          ∧ Q.eqv y (Q.ofNat 4510) = true)) :=
  ⟨by decide,
   C4_parse_distance "2".toList "4".toList "110".toList []
     (by decide) (by decide) (by decide) (by decide) (by decide) (by decide) (by decide)⟩

/-- C5: `_standardize_finish` maps null to null; any status code from the
fixed non-finish vocabulary (compared case-insensitively after trimming) to
null; non-positive numerics and unparseable text to null; passes positive
numerics through (`"PU"` yields null, `"3"` yields 3); and the pipeline's
finish-position transformation (`apply` + `Float64` cast + `round` + `Int64`
cast, cleaning lines 272-273) rounds the surviving values to the nearest
whole number (half to even, as Python `round`) and stores them as a nullable
integer. -/
theorem C5_standardize_finish (s t : String)
    (hvocab : NON_FINISH_CODES.contains (pyLower (pyStrip s)) = true)
    (hbad : NON_FINISH_CODES.contains (pyLower (pyStrip t)) = false)
    (hpf : pyFloat (pyLower (pyStrip t)) = none) :
    _standardize_finish none = none
    ∧ _standardize_finish (some (.str s)) = none
    ∧ _standardize_finish (some (.str t)) = none
    ∧ (∀ z : ℤ, z ≤ 0 → _standardize_finish (some (.int z)) = none)
    ∧ (∀ q : Q, q.pos = false → _standardize_finish (some (.float q)) = none)
    ∧ (∀ z : ℤ, 0 < z → _standardize_finish (some (.int z)) = some (Q.ofInt z))
    ∧ (∀ q : Q, q.pos = true → _standardize_finish (some (.float q)) = some q)
    ∧ _standardize_finish (some (.str "PU")) = none
    ∧ (∃ q, _standardize_finish (some (.str "3")) = some q ∧ Q.eqv q (Q.ofNat 3) = true)
    ∧ (∀ c : Cell,
        astypeInt64Cell (roundCell (astypeFloat64Cell
            ((_standardize_finish c).map PValue.float)))
          = (_standardize_finish c).map (fun q => PValue.int q.round)) := by
  refine ⟨rfl, ?_, ?_, ?_, ?_, ?_, ?_, by decide, by decide, ?_⟩
  · simp only [_standardize_finish]
    rw [if_pos hvocab]
  · simp only [_standardize_finish]
    rw [if_neg (by simpa using hbad), hpf]
  · intro z hz
    simp only [_standardize_finish]
    rw [if_neg (by omega)]
  · intro q hq
    simp only [_standardize_finish]
    rw [if_neg (by simp [hq])]
  · intro z hz
    simp only [_standardize_finish]
    rw [if_pos hz]
  · intro q hq
    simp only [_standardize_finish]
    rw [if_pos hq]
  · intro c
    cases hsc : _standardize_finish c
    · simp [astypeFloat64Cell, roundCell, astypeInt64Cell]
    · simp [astypeFloat64Cell, roundCell, astypeInt64Cell, pyFloatOfValue, pyIntOfValue]

/-- Witness for C5 at the spec's examples `"PU"` and unparseable `"xyz"`. -/
theorem C5_standardize_finish_witness :
    (NON_FINISH_CODES.contains (pyLower (pyStrip "PU")) = true
      ∧ NON_FINISH_CODES.contains (pyLower (pyStrip "xyz")) = false
      ∧ pyFloat (pyLower (pyStrip "xyz")) = none)
    ∧ (_standardize_finish none = none
      ∧ _standardize_finish (some (.str "PU")) = none
      ∧ _standardize_finish (some (.str "xyz")) = none
      ∧ (∀ z : ℤ, z ≤ 0 → _standardize_finish (some (.int z)) = none)
      ∧ (∀ q : Q, q.pos = false → _standardize_finish (some (.float q)) = none)
      ∧ (∀ z : ℤ, 0 < z → _standardize_finish (some (.int z)) = some (Q.ofInt z))
      ∧ (∀ q : Q, q.pos = true → _standardize_finish (some (.float q)) = some q)
      ∧ _standardize_finish (some (.str "PU")) = none
      ∧ (∃ q, _standardize_finish (some (.str "3")) = some q ∧ Q.eqv q (Q.ofNat 3) = true)
      ∧ (∀ c : Cell,
          astypeInt64Cell (roundCell (astypeFloat64Cell
              ((_standardize_finish c).map PValue.float)))
            = (_standardize_finish c).map (fun q => PValue.int q.round))) :=
  ⟨by decide, C5_standardize_finish "PU" "xyz" (by decide) (by decide) (by decide)⟩

/-- C6: `_parse_weight` returns null on null input, plain numeric input
unchanged as a float, converts composite stones-pounds text by
stones times 14 plus pounds (`"10-7"` yields `147.0`), and returns null for
any other unparseable text (including multi-dash text); it is total — it
never raises. -/
theorem C6_parse_weight (s t : String) (la lb : List Char) (x y : Q)
    (hdash : s.toList.contains '-' = true)
    (hsplit : splitDash s.toList = [la, lb])
    (hx : pyFloat (String.mk la) = some x) (hy : pyFloat (String.mk lb) = some y)
    (hnd : t.toList.contains '-' = false) (hpf : pyFloat t = none) :
    _parse_weight none = none
    ∧ (∀ z : ℤ, _parse_weight (some (.int z)) = some (Q.ofInt z))
    ∧ (∀ q : Q, _parse_weight (some (.float q)) = some q)
    ∧ _parse_weight (some (.str s)) = some (Q.add (Q.mul x (Q.ofNat 14)) y)
    ∧ _parse_weight (some (.str t)) = none
    ∧ (∃ q, _parse_weight (some (.str "10-7")) = some q ∧ Q.eqv q (Q.ofNat 147) = true)
    ∧ _parse_weight (some (.str "10-7-3")) = none := by
  refine ⟨rfl, fun z => rfl, fun q => rfl, ?_, ?_, by decide, by decide⟩
  · simp only [_parse_weight]
    rw [if_pos hdash, hsplit]
    dsimp only
    rw [hx, hy]
  · simp only [_parse_weight]
    rw [if_neg (by simpa using hnd), hpf]

/-- Witness for C6 at the spec's example `"10-7"` and unparseable `"junk"`. -/
theorem C6_parse_weight_witness :
    ("10-7".toList.contains '-' = true
      ∧ splitDash "10-7".toList = ["10".toList, "7".toList]
      ∧ pyFloat (String.mk "10".toList) = some ⟨10, 1⟩
      ∧ pyFloat (String.mk "7".toList) = some ⟨7, 1⟩
      ∧ "junk".toList.contains '-' = false ∧ pyFloat "junk" = none)
    ∧ (_parse_weight none = none
      ∧ (∀ z : ℤ, _parse_weight (some (.int z)) = some (Q.ofInt z))
      ∧ (∀ q : Q, _parse_weight (some (.float q)) = some q)
      ∧ _parse_weight (some (.str "10-7"))
          = some (Q.add (Q.mul ⟨10, 1⟩ (Q.ofNat 14)) ⟨7, 1⟩)
      ∧ _parse_weight (some (.str "junk")) = none
      ∧ (∃ q, _parse_weight (some (.str "10-7")) = some q ∧ Q.eqv q (Q.ofNat 147) = true)
      ∧ _parse_weight (some (.str "10-7-3")) = none) :=
  ⟨by decide,
   C6_parse_weight "10-7" "junk" "10".toList "7".toList ⟨10, 1⟩ ⟨7, 1⟩
     (by decide) (by decide) (by decide) (by decide) (by decide) (by decide)⟩

/-! ## Helper lemmas: the race-invariant validator -/

theorem validateGroups_ok_mem : ∀ (gs : List (Cell × DataFrame)),
    validateGroups gs = .ok () → ∀ p ∈ gs, checkGroup p.1 p.2 = .ok ()
  | [], _, p, hp => absurd hp (List.not_mem_nil p)
  | (race, df) :: rest, h, p, hp => by
    simp only [validateGroups] at h
    cases hcg : checkGroup race df with
    | error e =>
      rw [hcg] at h
      exact Except.noConfusion h
    | ok u =>
      cases u
      rw [hcg] at h
      rcases List.mem_cons.mp hp with rfl | hp2
      · exact hcg
      · exact validateGroups_ok_mem rest h p hp2

theorem validateGroups_error_mem : ∀ (gs : List (Cell × DataFrame)) (e : InvErr),
    validateGroups gs = .error e → ∃ p ∈ gs, checkGroup p.1 p.2 = .error e
  | [], e, h => by simp [validateGroups] at h
  | (race, df) :: rest, e, h => by
    simp only [validateGroups] at h
    cases hcg : checkGroup race df with
    | error e2 =>
      rw [hcg] at h
      injection h with h2
      subst h2
      exact ⟨(race, df), List.mem_cons_self _ _, hcg⟩
    | ok u =>
      cases u
      rw [hcg] at h
      obtain ⟨p, hp, hcp⟩ := validateGroups_error_mem rest e h
      exact ⟨p, List.mem_cons_of_mem _ hp, hcp⟩

theorem checkGroup_ok_nunique (race : Cell) (g : DataFrame)
    (h : checkGroup race g = .ok ()) (f : String) (hf : f ∈ INVARIANT_FIELDS) :
    nuniqueDropna (getCol g f) ≤ 1 := by
  unfold checkGroup at h
  cases hfind : INVARIANT_FIELDS.find? (fun f => decide (1 < nuniqueDropna (getCol g f))) with
  | some f2 =>
    rw [hfind] at h
    exact Except.noConfusion h
  | none =>
    have h2 := List.find?_eq_none.mp hfind f hf
    simp only [decide_eq_true_eq] at h2
    omega

theorem checkGroup_ok_count (race : Cell) (g : DataFrame)
    (h : checkGroup race g = .ok ()) :
    cellEqLen ((getCol g "n_runners").headD none) g.rows.length = true := by
  unfold checkGroup at h
  cases hfind : INVARIANT_FIELDS.find? (fun f => decide (1 < nuniqueDropna (getCol g f))) with
  | some f2 =>
    rw [hfind] at h
    exact Except.noConfusion h
  | none =>
    rw [hfind] at h
    dsimp only at h
    by_cases hcl : cellEqLen ((getCol g "n_runners").headD none) g.rows.length = true
    · exact hcl
    · have hcl2 : cellEqLen ((getCol g "n_runners").headD none) g.rows.length = false := by
        revert hcl
        cases cellEqLen ((getCol g "n_runners").headD none) g.rows.length <;> simp
      rw [hcl2] at h
      simp at h

theorem checkGroup_error_count (race : Cell) (g : DataFrame) (race2 e : Cell) (n : ℕ)
    (h : checkGroup race g = .error (.countMismatch race2 e n)) :
    race2 = race ∧ e = (getCol g "n_runners").headD none ∧ n = g.rows.length
    ∧ cellEqLen e n = false := by
  unfold checkGroup at h
  cases hfind : INVARIANT_FIELDS.find? (fun f => decide (1 < nuniqueDropna (getCol g f))) with
  | some f2 =>
    rw [hfind] at h
    injection h with h2
    exact InvErr.noConfusion h2
  | none =>
    rw [hfind] at h
    dsimp only at h
    by_cases hcl : cellEqLen ((getCol g "n_runners").headD none) g.rows.length = true
    · rw [hcl] at h
      simp only [Bool.not_true] at h
      rw [if_neg (by exact Bool.noConfusion)] at h
      split at h
      · exact Except.noConfusion h
      · split at h
        · split at h
          · injection h with h2
            exact InvErr.noConfusion h2
          · exact Except.noConfusion h
        · injection h with h2
          exact InvErr.noConfusion h2
    · have hcl2 : cellEqLen ((getCol g "n_runners").headD none) g.rows.length = false := by
        revert hcl
        cases cellEqLen ((getCol g "n_runners").headD none) g.rows.length <;> simp
      rw [hcl2] at h
      simp only [Bool.not_false] at h
      rw [if_pos trivial] at h
      injection h with h2
      injection h2 with ha hb hc
      refine ⟨ha.symm, hb.symm, hc.symm, ?_⟩
      rw [← hb, ← hc]
      exact hcl2

/-- C2 counterexample: in `T2` the `racecourse` field holds zero distinct
non-null values (all null) across the single race group, yet
`validate_race_invariants` accepts the table instead of raising — the code
checks `nunique(dropna=True) > 1`, so an all-null invariant field passes. -/
theorem C2_counterexample :
    validate_race_invariants T2 = .ok ()
    ∧ groupbyDF T2 "race_id" = [(some (.int 1), mkDF T2.rows)]
    ∧ nuniqueDropna (getCol (mkDF T2.rows) "racecourse") = 0
    ∧ 0 < (mkDF T2.rows).rows.length := by decide

/-- C2 (amended): for every table accepted by `validate_race_invariants`,
each invariant field has at most one distinct non-null value in every
`race_id` group (an all-null field passes; two or more distinct non-null
values raise an error naming the race and the field). -/
theorem C2_field_invariance (df : DataFrame)
    (h : validate_race_invariants df = .ok ()) :
    ∀ p ∈ groupbyDF df "race_id", ∀ f ∈ INVARIANT_FIELDS,
      nuniqueDropna (getCol p.2 f) ≤ 1 := by
  intro p hp f hf
  exact checkGroup_ok_nunique p.1 p.2 (validateGroups_ok_mem _ h p hp) f hf

/-- Witness for C2 at the concrete table `T2`. -/
theorem C2_field_invariance_witness :
    validate_race_invariants T2 = .ok ()
    ∧ (∀ p ∈ groupbyDF T2 "race_id", ∀ f ∈ INVARIANT_FIELDS,
        nuniqueDropna (getCol p.2 f) ≤ 1) :=
  ⟨by decide, C2_field_invariance T2 (by decide)⟩

/-- C3 counterexample: in `T3` the single group's row count (2) differs from
its declared first-row `n_runners` (5), yet the error raised is the
field-inconsistency error for `date` — not an error naming the expected
versus actual counts — because the field-invariance checks run first. -/
theorem C3_counterexample :
    validate_race_invariants T3 = .error (.inconsistent (some (.int 1)) "date")
    ∧ cellEqLen ((getCol T3 "n_runners").headD none) T3.rows.length = false := by decide

/-- C3 (amended): if `validate_race_invariants` returns without error, every
group's row count equals its declared (first-row) `n_runners`; and whenever it
raises the count-mismatch error, that error names a group's race key, its
first-row `n_runners` as expected and its row count as actual, and the two
really differ.  (A group with a differing count can instead surface an
earlier field-inconsistency error, as `C3_counterexample` shows.) -/
theorem C3_participant_count (df : DataFrame) :
    (validate_race_invariants df = .ok () →
      ∀ p ∈ groupbyDF df "race_id",
        cellEqLen ((getCol p.2 "n_runners").headD none) p.2.rows.length = true)
    ∧ (∀ race e n, validate_race_invariants df = .error (.countMismatch race e n) →
        ∃ p ∈ groupbyDF df "race_id", race = p.1
          ∧ e = (getCol p.2 "n_runners").headD none
          ∧ n = p.2.rows.length ∧ cellEqLen e n = false) := by
  constructor
  · intro h p hp
    exact checkGroup_ok_count p.1 p.2 (validateGroups_ok_mem _ h p hp)
  · intro race e n h
    obtain ⟨p, hp, hcp⟩ := validateGroups_error_mem _ _ h
    obtain ⟨h1, h2, h3, h4⟩ := checkGroup_error_count p.1 p.2 race e n hcp
    exact ⟨p, hp, h1, h2, h3, h4⟩

/-- Witness for C3 at the concrete table `T2`. -/
theorem C3_participant_count_witness :
    validate_race_invariants T2 = .ok ()
    ∧ (∀ p ∈ groupbyDF T2 "race_id",
        cellEqLen ((getCol p.2 "n_runners").headD none) p.2.rows.length = true) :=
  ⟨by decide, (C3_participant_count T2).1 (by decide)⟩

/-- C10: the participant-count check reads the declared `n_runners` only from
the first row of each group.  `T10`'s single group declares 2 and 99 across
its two rows yet passes (count 2 equals the first row's declaration), and
re-ordering the same two rows (`T10c`) flips the outcome to a count-mismatch
error naming the new first row's 99 — so constancy of `n_runners` is never
validated and only the first row drives the check. -/
theorem C10_count_reads_first_row_only :
    validate_race_invariants T10 = .ok ()
    ∧ getCol T10 "n_runners" = [some (.int 2), some (.int 99)]
    ∧ T10.rows.length = 2
    ∧ validate_race_invariants T10c
        = .error (.countMismatch (some (.int 1)) (some (.int 99)) 2) := by decide

/-- C7: `validate_schema` checks in order — missing required columns first
(raised with the sorted list of missing names), then the dtype-kind check in
schema order (object/text columns acceptable for any declared kind, per
`kindOK`), then the duplicate `(race_id, horse_id)` check; a table with both
a missing column and a duplicate key (`T7`) gets the missing-column error,
and any schema error aborts `run_pipeline` before `clean_fields`
(normalization) runs. -/
theorem C7_validate_schema_order (df : DataFrame) :
    (SCHEMA_ordered_columns.filter (fun c => !(df.cols.contains c)) ≠ [] →
      validate_schema df = .error (.missingColumns
        (stableSort strLe (SCHEMA_ordered_columns.filter (fun c => !(df.cols.contains c))))))
    ∧ (∀ col, validate_schema df = .error (.badType col) →
        SCHEMA_ordered_columns.filter (fun c => !(df.cols.contains c)) = []
        ∧ firstBadColumn df = some col)
    ∧ (∀ col, SCHEMA_ordered_columns.filter (fun c => !(df.cols.contains c)) = [] →
        firstBadColumn df = some col → validate_schema df = .error (.badType col))
    ∧ (validate_schema df = .error .duplicateKey →
        SCHEMA_ordered_columns.filter (fun c => !(df.cols.contains c)) = []
        ∧ firstBadColumn df = none
        ∧ duplicatedAny df ["race_id", "horse_id"] = true)
    ∧ (∀ e, validate_schema df = .error e → run_pipeline df = .error (.schema e))
    ∧ (validate_schema T7 = .error (.missingColumns ["age"])
        ∧ duplicatedAny T7 ["race_id", "horse_id"] = true) := by
  refine ⟨?_, ?_, ?_, ?_, ?_, by decide⟩
  · intro h
    unfold validate_schema
    dsimp only
    rw [if_pos h]
  · intro col h
    unfold validate_schema at h
    dsimp only at h
    by_cases hm : SCHEMA_ordered_columns.filter (fun c => !(df.cols.contains c)) ≠ []
    · rw [if_pos hm] at h
      injection h with h2
      exact SchemaErr.noConfusion h2
    · push_neg at hm
      refine ⟨hm, ?_⟩
      rw [if_neg (not_ne_iff.mpr hm)] at h
      cases hfb : firstBadColumn df with
      | some c =>
        rw [hfb] at h
        injection h with h2
        injection h2 with h3
        rw [h3]
      | none =>
        rw [hfb] at h
        by_cases hdup : duplicatedAny df ["race_id", "horse_id"] = true
        · rw [if_pos hdup] at h
          injection h with h2
          exact SchemaErr.noConfusion h2
        · rw [if_neg hdup] at h
          exact Except.noConfusion h
  · intro col hm hfb
    unfold validate_schema
    dsimp only
    rw [if_neg (not_ne_iff.mpr hm), hfb]
  · intro h
    unfold validate_schema at h
    dsimp only at h
    by_cases hm : SCHEMA_ordered_columns.filter (fun c => !(df.cols.contains c)) ≠ []
    · rw [if_pos hm] at h
      injection h with h2
      exact SchemaErr.noConfusion h2
    · push_neg at hm
      refine ⟨hm, ?_⟩
      rw [if_neg (not_ne_iff.mpr hm)] at h
      cases hfb : firstBadColumn df with
      | some c =>
        rw [hfb] at h
        injection h with h2
        exact SchemaErr.noConfusion h2
      | none =>
        refine ⟨rfl, ?_⟩
        rw [hfb] at h
        by_cases hdup : duplicatedAny df ["race_id", "horse_id"] = true
        · exact hdup
        · rw [if_neg hdup] at h
          exact Except.noConfusion h
  · intro e h
    unfold run_pipeline
    rw [h]

/-- Witness for C7 at the concrete table `T7`, which is missing `age` and
carries a duplicate key. -/
theorem C7_validate_schema_order_witness :
    SCHEMA_ordered_columns.filter (fun c => !(T7.cols.contains c)) ≠ []
    ∧ validate_schema T7 = .error (.missingColumns
        (stableSort strLe (SCHEMA_ordered_columns.filter (fun c => !(T7.cols.contains c))))) :=
  ⟨by decide, (C7_validate_schema_order T7).1 (by decide)⟩

/-! ## Helper lemmas: the shape of cleaned frames -/

theorem clean_fields_ok_shape (df c : DataFrame) (h : clean_fields df = .ok c) :
    ∃ X, c = projectCols X SCHEMA_ordered_columns := by
  unfold clean_fields at h
  dsimp only at h
  split at h
  · exact Except.noConfusion h
  · injection h with h2
    exact ⟨_, h2.symm⟩

theorem projectCols_rows_keys (df : DataFrame) (cols : List String) :
    ∀ r ∈ (projectCols df cols).rows, Row.keys r = cols := by
  intro r hr
  simp only [projectCols, mkDF, List.mem_map] at hr
  obtain ⟨r0, _, rfl⟩ := hr
  have h2 : ((fun (x : String × Cell) => x.1) ∘ fun c => (c, r0.get c)) = fun c => c := rfl
  simp [Row.keys, List.map_map, h2]

/-- C1 counterexample: `T1` is a schema-valid raw table with one row, but its
row is dropped during cleaning (null age), and the full pipeline then
persists an **empty file with no header row at all** (`Option.none` in the
model) — not a header carrying the schema's twelve columns, as the claim
requires of every raw input table. -/
theorem C1_counterexample :
    run_pipeline T1 = .ok none
    ∧ validate_schema T1 = .ok ()
    ∧ T1.rows.length = 1
    ∧ SCHEMA_ordered_columns ≠ [] := by decide

/-- C1 (amended): for every raw table that cleans to at least one surviving
row, the persisted file's header is exactly the schema's twelve columns in
declared order, and none of them carries the `obs__` observation marker;
when no rows survive, the shim's `to_csv` writes an empty file with no
header. -/
theorem C1_persisted_header (df c : DataFrame) (h : clean_fields df = .ok c)
    (hne : c.rows ≠ []) :
    save_cleaned_data (enforce_chronological_order c) = some SCHEMA_ordered_columns
    ∧ SCHEMA_ordered_columns.all (fun s => !(strStartsWith s OBS_PREFIX)) = true := by
  obtain ⟨X, rfl⟩ := clean_fields_ok_shape df c h
  refine ⟨?_, by decide⟩
  have hkeys := projectCols_rows_keys X SCHEMA_ordered_columns
  have hperm := stableSort_perm (rowLeBy SORT_KEYS) (projectCols X SCHEMA_ordered_columns).rows
  have hne2 : stableSort (rowLeBy SORT_KEYS) (projectCols X SCHEMA_ordered_columns).rows ≠ [] := by
    intro hcon
    apply hne
    have h3 := hperm.symm
    rw [hcon] at h3
    exact h3.eq_nil
  cases hs : stableSort (rowLeBy SORT_KEYS) (projectCols X SCHEMA_ordered_columns).rows with
  | nil => exact absurd hs hne2
  | cons r t =>
    have hr : r ∈ (projectCols X SCHEMA_ordered_columns).rows :=
      hperm.mem_iff.mp (by rw [hs]; exact List.mem_cons_self r t)
    unfold enforce_chronological_order sort_valuesDF save_cleaned_data
    simp only [mkDF, hs]
    rw [if_neg (by simp)]
    rw [hkeys r hr]

/-- Witness for C1 at the healthy one-row table `T0`. -/
theorem C1_persisted_header_witness :
    (clean_fields T0 = .ok T0clean ∧ T0clean.rows ≠ [])
    ∧ (save_cleaned_data (enforce_chronological_order T0clean) = some SCHEMA_ordered_columns
      ∧ SCHEMA_ordered_columns.all (fun s => !(strStartsWith s OBS_PREFIX)) = true) :=
  ⟨⟨by decide, by decide⟩, C1_persisted_header T0 T0clean (by decide) (by decide)⟩

/-! ## Helper lemmas: the observation-column drop loop -/

theorem Row.keys_dropKey (r : Row) (c : String) :
    Row.keys (Row.dropKey r c) = (Row.keys r).filter (fun k => k != c) := by
  induction r with
  | nil => rfl
  | cons p t ih =>
    have hd : Row.dropKey (p :: t) c
        = if (p.1 != c) = true then p :: Row.dropKey t c else Row.dropKey t c := by
      simp [Row.dropKey, List.filter_cons]
    rw [hd, show Row.keys (p :: t) = p.1 :: Row.keys t from rfl, List.filter_cons]
    by_cases hp : (p.1 != c) = true
    · rw [if_pos hp, if_pos hp,
        show Row.keys (p :: Row.dropKey t c) = p.1 :: Row.keys (Row.dropKey t c) from rfl, ih]
    · rw [if_neg hp, if_neg hp, ih]

theorem dropColDF_wf (df : DataFrame) (c : String) (hwf : WellFormed df)
    (hne : df.rows ≠ []) :
    WellFormed (dropColDF df c)
    ∧ (dropColDF df c).rows.length = df.rows.length
    ∧ (∀ m ∈ df.cols, m ≠ c → m ∈ (dropColDF df c).cols) := by
  cases hrows : df.rows with
  | nil => exact absurd hrows hne
  | cons r t =>
    refine ⟨?_, ?_, ?_⟩
    · intro rr hrr
      simp only [dropColDF, mkDF, hrows, List.map_cons, List.mem_cons, List.mem_map] at hrr ⊢
      rcases hrr with rfl | ⟨r0, hr0, rfl⟩
      · rw [Row.keys_dropKey]
      · rw [Row.keys_dropKey, Row.keys_dropKey,
          hwf r0 (by rw [hrows]; exact List.mem_cons_of_mem r hr0),
          hwf r (by rw [hrows]; exact List.mem_cons_self r t)]
    · simp [dropColDF, mkDF, hrows]
    · intro m hm hmc
      simp only [dropColDF, mkDF, hrows, List.map_cons]
      rw [Row.keys_dropKey, hwf r (by rw [hrows]; exact List.mem_cons_self r t)]
      rw [List.mem_filter]
      exact ⟨hm, by simpa using hmc⟩

theorem dropObsLoop_fs_mono : ∀ (cs : List String) (df0 : DataFrame) (c0 : String),
    (dropObsLoop cs df0 (some c0)).2.isSome = true
  | [], _, _ => rfl
  | c :: rest, df0, c0 => by
    simp only [dropObsLoop, Option.isNone_some, Bool.and_false, Bool.false_eq_true,
      if_false]
    by_cases hobs : strStartsWith c OBS_PREFIX = true
    · rw [if_pos hobs]
      exact dropObsLoop_fs_mono rest (dropColDF df0 c) c0
    · rw [if_neg hobs]
      exact dropObsLoop_fs_mono rest df0 c0

theorem dropObsLoop_sets_fs : ∀ (cs : List String) (df0 : DataFrame) (fs : Option String),
    "obs__finish_position" ∈ cs → (dropObsLoop cs df0 fs).2.isSome = true
  | [], _, _, h => absurd h (List.not_mem_nil _)
  | c :: rest, df0, fs, h => by
    simp only [dropObsLoop]
    by_cases hobs : strStartsWith c OBS_PREFIX = true
    · rw [if_pos hobs]
      by_cases hc : (c = "obs__finish_position" && fs.isNone) = true
      · rw [if_pos hc]
        cases fs with
        | none => exact dropObsLoop_fs_mono rest df0 c
        | some c0 => simp at hc
      · rw [if_neg hc]
        cases fs with
        | some c0 => exact dropObsLoop_fs_mono rest (dropColDF df0 c) c0
        | none =>
          have hcne : c ≠ "obs__finish_position" := by
            intro hceq
            apply hc
            simp [hceq]
          rcases List.mem_cons.mp h with rfl | h2
          · exact absurd rfl hcne
          · exact dropObsLoop_sets_fs rest (dropColDF df0 c) none h2
    · rw [if_neg hobs]
      have hcne : "obs__finish_position" ∈ rest := by
        rcases List.mem_cons.mp h with rfl | h2
        · exact absurd (by decide) hobs
        · exact h2
      exact dropObsLoop_sets_fs rest df0 fs hcne

theorem dropObsLoop_keeps_fp : ∀ (cs : List String) (df0 : DataFrame) (fs : Option String),
    WellFormed df0 → df0.rows ≠ [] → "finish_position" ∈ df0.cols →
    "finish_position" ∈ (dropObsLoop cs df0 fs).1.cols
  | [], df0, fs, _, _, hfp => hfp
  | c :: rest, df0, fs, hwf, hne, hfp => by
    simp only [dropObsLoop]
    by_cases hobs : strStartsWith c OBS_PREFIX = true
    · rw [if_pos hobs]
      have hcne : "finish_position" ≠ c := by
        intro hceq
        rw [← hceq] at hobs
        exact absurd hobs (by decide)
      by_cases hc : (c = "obs__finish_position" && fs.isNone) = true
      · rw [if_pos hc]
        exact dropObsLoop_keeps_fp rest df0 (some c) hwf hne hfp
      · rw [if_neg hc]
        obtain ⟨hwf2, hlen2, hmem2⟩ := dropColDF_wf df0 c hwf hne
        refine dropObsLoop_keeps_fp rest (dropColDF df0 c) fs hwf2 ?_ (hmem2 _ hfp hcne)
        intro hcon
        rw [hcon] at hlen2
        simp at hlen2
        exact hne (List.length_eq_zero.mp hlen2.symm)
    · rw [if_neg hobs]
      exact dropObsLoop_keeps_fp rest df0 fs hwf hne hfp

/-- C9 counterexample: `CX9` is a zero-row frame whose column list contains
`finish_position` (such frames arise in the shim via `df["col"] = []`), yet
`clean_fields` raises: the opening `df.copy()` rebuilds the column list from
the (absent) first row, wiping it, after which the finish-column check
fails.  So the claim is false for every-table quantification. -/
theorem C9_counterexample :
    CX9.cols.contains "finish_position" = true
    ∧ WellFormed CX9
    ∧ clean_fields CX9
        = .error "Finish position column missing; expected obs__finish_position or finish_position"
    := by
  refine ⟨by decide, ?_, by decide⟩
  intro r hr
  exact absurd hr (List.not_mem_nil r)

/-- C9 (amended): for every well-formed table with at least one row that
contains an `obs__finish_position` or a `finish_position` column,
`clean_fields` does not raise, even when other required columns are entirely
absent — reading a missing column yields an all-null series, rows missing
essential values are dropped, and any schema column still absent at the end
is added null-filled before the final projection. -/
theorem C9_clean_fields_total (df : DataFrame) (hwf : WellFormed df)
    (hne : df.rows ≠ [])
    (h : df.cols.contains "obs__finish_position" = true
      ∨ df.cols.contains "finish_position" = true) :
    ∃ c, clean_fields df = .ok c := by
  have hcopy : mkDF df.rows = df := by
    obtain ⟨cols, rows⟩ := df
    cases hrows : rows with
    | nil => exact absurd hrows hne
    | cons r t =>
      subst hrows
      have hk := hwf r (List.mem_cons_self r t)
      simp [mkDF]
      exact hk
  have hguard : ((dropObsLoop df.cols df none).2.isNone
      && !((dropObsLoop df.cols df none).1.cols.contains "finish_position")) = false := by
    rcases h with h | h
    · have hs := dropObsLoop_sets_fs df.cols df none (by simpa using h)
      cases hfs : (dropObsLoop df.cols df none).2 with
      | none =>
        rw [hfs] at hs
        simp at hs
      | some c0 => simp [hfs]
    · have hk := dropObsLoop_keeps_fp df.cols df none hwf hne (by simpa using h)
      have h2 : (dropObsLoop df.cols df none).1.cols.contains "finish_position" = true := by
        simpa using hk
      simp only [h2, Bool.not_true, Bool.and_false]
  unfold clean_fields
  dsimp only
  rw [hcopy, hguard]
  rw [if_neg (by simp)]
  exact ⟨_, rfl⟩

/-- Witness for C9 at `T9`, which carries only `race_id` and
`finish_position`. -/
theorem C9_clean_fields_total_witness :
    (WellFormed T9 ∧ T9.rows ≠ []
      ∧ (T9.cols.contains "obs__finish_position" = true
        ∨ T9.cols.contains "finish_position" = true))
    ∧ ∃ c, clean_fields T9 = .ok c := by
  have hwf : WellFormed T9 := by
    intro r hr
    rcases List.mem_cons.mp hr with rfl | h2
    · rfl
    · exact absurd h2 (List.not_mem_nil r)
  exact ⟨⟨hwf, by decide, by decide⟩,
    C9_clean_fields_total T9 hwf (by decide) (by decide)⟩
